import Mathlib

/-!
# Verification of the crusoe production-economy core

A shallow embedding of the data model and operations of the crusoe
repository (src/goods.rs, src/stock.rs, src/agent.rs, src/valuation.rs,
src/lib.rs), together with theorems settling the frozen specification
claims.

Conventions:
* Rust `u32` quantities and lifetimes become `Nat` (no claim in scope
  exercises arithmetic overflow; where a Rust subtraction could underflow
  this is noted at the definition).
* Rust `f32` values become `ℚ` (the in-scope computations are exact
  small fractions).
* `HashMap<GoodsUnit, UInt>` becomes an association list
  `List (GoodsUnit × Nat)`; `insert` replaces the value of an existing
  key in place (or appends a fresh key), `remove` deletes the key, and
  iteration order is the list order (modelling the map's arbitrary but
  fixed iteration order).
* Fallible operations return `Except StockError`; Rust panics become
  `Option`/`Except` failures where they are reachable in scope.
-/

namespace Crusoe

/-- The closed goods enumeration, from `src/goods.rs` (`enum Good`). -/
inductive Good where
  | Berries
  | Fish
  | Basket
  | Spear
  | Smoker
  | Boat
  | Timber
  | Axe
deriving DecidableEq, Repr

/-- `Good::iter()` of the strum `EnumIter` derive: declaration order. -/
def Good.iter : List Good :=
  [.Berries, .Fish, .Basket, .Spear, .Smoker, .Boat, .Timber, .Axe]

/-- `Good::is_consumer` from `src/goods.rs`. -/
def Good.is_consumer : Good → Bool
  | .Berries => true
  | .Fish => true
  | .Basket => false
  | .Spear => false
  | .Smoker => false
  | .Boat => false
  | .Timber => false
  | .Axe => false

/-- `Good::is_material` from `src/goods.rs`: only Timber is a material. -/
def Good.is_material : Good → Bool
  | .Timber => true
  | _ => false

/-- `Good::is_produced_using` from `src/goods.rs`. -/
def Good.is_produced_using : Good → Good → Bool
  | .Berries, .Basket => true
  | .Berries, _ => false
  | .Fish, .Spear => true
  | .Fish, .Boat => true
  | .Fish, _ => false
  | .Basket, _ => false
  | .Spear, _ => false
  | .Smoker, .Timber => true
  | .Smoker, _ => false
  | .Boat, .Timber => true
  | .Boat, _ => false
  | .Timber, .Axe => true
  | .Timber, _ => false
  | .Axe, _ => false

/-- `Good::is_improved_using` from `src/goods.rs`: fish is improved by a smoker. -/
def Good.is_improved_using : Good → Good → Bool
  | .Fish, .Smoker => true
  | _, _ => false

/-- `Good::lifetime_improvement_increment` from `src/goods.rs`:
a smoker increases the lifetime of fish by 20 time units. -/
def Good.lifetime_improvement_increment : Good → Good → Nat
  | .Smoker, .Fish => 20
  | _, _ => 0

/-- `Good::required_inputs` from `src/goods.rs`. -/
def Good.required_inputs : Good → List Good
  | .Berries => []
  | .Fish => []
  | .Basket => []
  | .Spear => []
  | .Smoker => [.Timber]
  | .Boat => [.Timber]
  | .Timber => [.Axe]
  | .Axe => []

/-- `Good::multiple_timesteps_to_complete` from `src/goods.rs`. -/
def Good.multiple_timesteps_to_complete : Good → Option Nat
  | .Berries => none
  | .Fish => none
  | .Basket => none
  | .Spear => none
  | .Smoker => some 3
  | .Boat => some 10
  | .Timber => none
  | .Axe => some 2

/-- `enum Action` from `src/actions.rs`. -/
inductive Action where
  | ProduceGood (good : Good)
  | Leisure
deriving DecidableEq, Repr

/-- `enum Productivity` from `src/goods.rs`. -/
inductive Productivity where
  | Immediate (quantity : Nat)
  | Delayed (interval : Nat)
  | None
deriving DecidableEq, Repr

/-- `Productivity::per_unit_time` from `src/goods.rs` (f32 modelled as ℚ). -/
def Productivity.per_unit_time : Productivity → Option ℚ
  | .Immediate quantity => some (quantity : ℚ)
  | .Delayed interval => some (1 / (interval : ℚ))
  | .None => none

/-- `struct GoodsUnit` from `src/goods.rs`: a batch key of a good together
with its remaining lifetime (remaining uses, for capital goods). -/
structure GoodsUnit where
  good : Good
  remaining_lifetime : Nat
deriving DecidableEq, Repr

/-- `GoodsUnit::new` from `src/goods.rs`: a newly-produced unit. -/
def GoodsUnit.new : Good → GoodsUnit
  | .Berries => { good := .Berries, remaining_lifetime := 10 }
  | .Fish => { good := .Fish, remaining_lifetime := 1 }
  | .Basket => { good := .Basket, remaining_lifetime := 10 }
  | .Spear => { good := .Spear, remaining_lifetime := 5 }
  | .Smoker => { good := .Smoker, remaining_lifetime := 5 }
  | .Boat => { good := .Boat, remaining_lifetime := 20 }
  | .Timber => { good := .Timber, remaining_lifetime := 1000 }
  | .Axe => { good := .Axe, remaining_lifetime := 5 }

/-- `GoodsUnit::step_forward` from `src/goods.rs` (lines 270-336), translated
arm by arm.  Note the material-not-used-in-production arms return
`some` with `remaining_lifetime - 1` without the `> 1` eviction check the
other arms have (Rust `u32` subtraction would underflow at 0; `Nat`
subtraction truncates, which is only reached for a lifetime-0 material). -/
def GoodsUnit.step_forward (self : GoodsUnit) (action : Action) : Option GoodsUnit :=
  match self.good.is_consumer with
  | true =>
      if self.remaining_lifetime > 1 then
        some { good := self.good, remaining_lifetime := self.remaining_lifetime - 1 }
      else
        none
  | false =>
      match action with
      | .ProduceGood produced_good =>
          if produced_good.is_produced_using self.good then
            match self.good.is_material with
            | true => none
            | false =>
                if self.remaining_lifetime > 1 then
                  some { good := self.good, remaining_lifetime := self.remaining_lifetime - 1 }
                else
                  none
          else if self.good.is_material then
            some { good := self.good, remaining_lifetime := self.remaining_lifetime - 1 }
          else
            some self
      | .Leisure =>
          match self.good.is_material with
          | true => some { good := self.good, remaining_lifetime := self.remaining_lifetime - 1 }
          | false => some self

/-- `struct PartialGoodsUnit` from `src/goods.rs`. -/
structure PartialGoodsUnit where
  good : Good
  time_to_completion : Nat
deriving DecidableEq, Repr

/-- `PartialGoodsUnit::step_forward` from `src/goods.rs` (lines 363-389):
continuing production leaves the unit unchanged; any other action pushes
`time_to_completion` up by one, and the unit is dropped when it already
equals the full production duration. -/
def PartialGoodsUnit.step_forward (self : PartialGoodsUnit) (action : Action) :
    Option PartialGoodsUnit :=
  match action with
  | .ProduceGood good =>
      if good = self.good then
        some self
      else
        match self.good.multiple_timesteps_to_complete with
        | some max_time_to_completion =>
            if self.time_to_completion = max_time_to_completion then
              none
            else
              some { good := self.good, time_to_completion := self.time_to_completion + 1 }
        | none => none
  | .Leisure =>
      match self.good.multiple_timesteps_to_complete with
      | some max_time_to_completion =>
          if self.time_to_completion = max_time_to_completion then
            none
          else
            some { good := self.good, time_to_completion := self.time_to_completion + 1 }
      | none => none

/-- `enum StockError` from `src/stock.rs`. -/
inductive StockError where
  | InsufficientStock
deriving DecidableEq, Repr

/-- The goods map of a `Stock`: `HashMap<GoodsUnit, UInt>` modelled as an
association list whose order stands for the map's iteration order. -/
abbrev GoodsMap := List (GoodsUnit × Nat)

/-- `HashMap::get`. -/
def GoodsMap.get (m : GoodsMap) (k : GoodsUnit) : Option Nat :=
  (m.find? (fun p => p.1 = k)).map (fun p => p.2)

/-- `HashMap::insert`: replace the value of an existing key in place,
else append the new key. -/
def GoodsMap.insert (m : GoodsMap) (k : GoodsUnit) (v : Nat) : GoodsMap :=
  if m.any (fun p => p.1 = k) then
    m.map (fun p => if p.1 = k then (k, v) else p)
  else
    m ++ [(k, v)]

/-- `HashMap::remove`: delete the key. -/
def GoodsMap.erase (m : GoodsMap) (k : GoodsUnit) : GoodsMap :=
  m.filter (fun p => p.1 ≠ k)

/-- `struct Stock` from `src/stock.rs`: a goods map and the in-progress
(partially produced) units. -/
structure Stock where
  stock : GoodsMap
  partial_stock : List PartialGoodsUnit
deriving DecidableEq, Repr

/-- `Stock::default()`: empty stock. -/
def Stock.default : Stock := { stock := [], partial_stock := [] }

/-- `Stock::add` from `src/stock.rs` (lines 128-136): merge the quantity
into the existing bucket for the exact key, else create the bucket.
(Rust panics on a zero quantity; every in-scope call site passes a
positive quantity.) -/
def Stock.add (self : Stock) (good : GoodsUnit) (quantity : Nat) : Stock :=
  match self.stock.get good with
  | some existing_qty => { self with stock := self.stock.insert good (quantity + existing_qty) }
  | none => { self with stock := self.stock.insert good quantity }

/-- `Stock::remove` from `src/stock.rs` (lines 147-160): decrement the
bucket, deleting it when the quantity reaches exactly zero; error when the
bucket is absent or holds less than requested (in which case the Rust
method performs no mutation, so the caller's stock is unchanged). -/
def Stock.remove (self : Stock) (goods_unit : GoodsUnit) (quantity : Nat) :
    Except StockError Stock :=
  match self.stock.get goods_unit with
  | some qty =>
      if qty > quantity then
        .ok { self with stock := self.stock.insert goods_unit (qty - quantity) }
      else if qty = quantity then
        .ok { self with stock := self.stock.erase goods_unit }
      else
        .error .InsufficientStock
  | none => .error .InsufficientStock

/-- `Stock::remove_all` from `src/stock.rs`: retain only buckets of other goods. -/
def Stock.remove_all (self : Stock) (good : Good) : Stock :=
  { self with stock := self.stock.filter (fun p => p.1.good ≠ good) }

/-- `Stock::contains` from `src/stock.rs`: some bucket key has the good. -/
def Stock.contains (self : Stock) (good : Good) : Bool :=
  self.stock.any (fun p => p.1.good = good)

/-- `Stock::count_units` from `src/stock.rs`: total quantity over the
buckets of the good. -/
def Stock.count_units (self : Stock) (good : Good) : Nat :=
  ((self.stock.filter (fun p => p.1.good = good)).map (fun p => p.2)).sum

/-- `Stock::get_partial` from `src/stock.rs`: the first in-progress unit
of the good, if any. -/
def Stock.get_partial_unit (self : Stock) (good : Good) : Option PartialGoodsUnit :=
  self.partial_stock.find? (fun p => p.good = good)

/-- `Stock::add_partial` from `src/stock.rs`: push the in-progress unit.
(Rust panics when a unit of the same good is already present; in-scope
call sites only add when absent.) -/
def Stock.add_partial_unit (self : Stock) (good : PartialGoodsUnit) : Stock :=
  { self with partial_stock := self.partial_stock ++ [good] }

/-- `Stock::remove_partial` from `src/stock.rs`: drop the first in-progress
unit of the same good (Rust panics when none exists). -/
def Stock.remove_partial_unit (self : Stock) (partial_goods_unit : PartialGoodsUnit) : Stock :=
  { self with
    partial_stock :=
      self.partial_stock.eraseP (fun x => x.good = partial_goods_unit.good) }

/-- Insert a pair into a list sorted by ascending `remaining_lifetime`. -/
def insertByLifetime (p : GoodsUnit × Nat) : List (GoodsUnit × Nat) → List (GoodsUnit × Nat)
  | [] => [p]
  | q :: rest =>
      if q.1.remaining_lifetime < p.1.remaining_lifetime then
        q :: insertByLifetime p rest
      else
        p :: q :: rest

/-- Stable sort by ascending `remaining_lifetime` (itertools `sorted_by_key`). -/
def sortByLifetime : List (GoodsUnit × Nat) → List (GoodsUnit × Nat)
  | [] => []
  | p :: rest => insertByLifetime p (sortByLifetime rest)

/-- `Stock::next_consumables` from `src/stock.rs` (lines 236-242): the
consumer-good buckets ordered by ascending remaining lifetime. -/
def Stock.next_consumables (self : Stock) : List (GoodsUnit × Nat) :=
  sortByLifetime (self.stock.filter (fun p => p.1.good.is_consumer))

/-- `Stock::next_capital_goods_units` from `src/stock.rs` (lines 246-253):
the buckets of one capital good ordered by ascending remaining lifetime. -/
def Stock.next_capital_goods_units (self : Stock) (capital_good : Good) :
    List (GoodsUnit × Nat) :=
  sortByLifetime
    (self.stock.filter (fun p => ¬ p.1.good.is_consumer && p.1.good = capital_good))

/-- `Stock::count_material_units` from `src/stock.rs`. -/
def Stock.count_material_units (self : Stock) (material_good : Good) : Nat :=
  if ¬ material_good.is_material then 0
  else ((self.next_capital_goods_units material_good).map (fun p => p.2)).sum

/-- `Stock::step_forward` from `src/stock.rs` (lines 218-233): a fresh
stock is built by stepping every bucket forward by one time unit (dropping
the evicted ones) and stepping every in-progress unit forward.  The
snapshot of `Stock::step_forward` in the repository calls the goods-unit
step without arguments; the `GoodsUnit::step_forward` present in
`src/goods.rs` takes the action, which is passed through here. -/
def Stock.step_forward (self : Stock) (action : Action) : Stock :=
  { stock := self.stock.filterMap (fun p => (p.1.step_forward action).map (fun u => (u, p.2)))
    partial_stock := self.partial_stock.filterMap (fun p => p.step_forward action) }

/-- `Stock::is_used` from `src/stock.rs` (lines 269-285): the good is used
by the action iff the produced good is produced using it and every
required input of the produced good is present in the stock. -/
def Stock.is_used (self : Stock) (good : Good) (action : Action) : Bool :=
  match action with
  | .ProduceGood produced_good =>
      if ¬ produced_good.is_produced_using good then false
      else (produced_good.required_inputs).all (fun input => self.contains input)
  | .Leisure => false

/-- `Stock::consume_material_inputs` from `src/stock.rs` (lines 290-316):
producing a Smoker or Boat consumes one unit of Timber (the soonest to
expire), failing when none is held.  (The repository snapshot also has a
`Good::SmokedFish` arm; that variant does not exist in the `Good` enum of
`src/goods.rs`, so it has no counterpart here.) -/
def Stock.consume_material_inputs (self : Stock) (action : Action) : Except StockError Stock :=
  match action with
  | .ProduceGood good =>
      match good with
      | .Smoker | .Boat =>
          match (self.next_capital_goods_units .Timber).head? with
          | none => .error .InsufficientStock
          | some timber_unit => self.remove timber_unit.1 1
      | _ => .ok self
  | .Leisure => .ok self

/-- One entry of the `stock_change` accumulation in
`Stock::degrade_capital_stock`: the used (least-lifetime) unit of a
non-material capital good, paired with the iterated bucket's quantity. -/
def Stock.degrade_stock_change (self : Stock) (action : Action) :
    Except StockError (List (GoodsUnit × Nat)) :=
  self.stock.foldr
    (fun p acc => do
      let rest ← acc
      let capital_good := p.1.good
      if capital_good.is_consumer || capital_good.is_material then
        pure rest
      else if ¬ self.is_used capital_good action then
        pure rest
      else
        match action with
        | .ProduceGood produced_good =>
            if produced_good.is_produced_using capital_good then
              match (self.next_capital_goods_units capital_good).head? with
              | none =>
                  -- Rust: `Err(InsufficientStock)` when the good is a required
                  -- input, otherwise an unreachable `unwrap` panic (the good is
                  -- in the stock, so the list is non-empty).
                  .error .InsufficientStock
              | some next_unit => pure ((next_unit.1, p.2) :: rest)
            else
              pure rest
        | .Leisure => pure rest)
    (pure [])

/-- `Stock::degrade_capital_stock` from `src/stock.rs` (lines 319-379):
collect the capital-good wear entries, consume material inputs, then
apply the wear (remove the used unit's bucket; reinsert it aged by one use
when lifetime remains; restore the unused surplus quantity). -/
def Stock.degrade_capital_stock (self : Stock) (action : Action) : Except StockError Stock := do
  let stock_change ← self.degrade_stock_change action
  let after_materials ← self.consume_material_inputs action
  pure <| stock_change.foldl
    (fun (st : Stock) (entry : GoodsUnit × Nat) =>
      let goods_unit := entry.1
      let qty := entry.2
      let m1 := st.stock.erase goods_unit
      let m2 :=
        if goods_unit.remaining_lifetime > 1 then
          m1.insert
            { good := goods_unit.good,
              remaining_lifetime := goods_unit.remaining_lifetime - 1 } 1
        else m1
      let m3 := if qty > 1 then m2.insert goods_unit (qty - 1) else m2
      { st with stock := m3 })
    after_materials

/-- `Good::default_productivity` from `src/goods.rs` (lines 63-110).  For a
multi-step good, every required input must be present, else `None`; for the
immediate goods the enabling capital goods are checked in the source's
order (a Spear is checked before a Boat for Fish).  The `panic!` arms of
the Rust code are unreachable (those goods take the multi-step branch). -/
def Good.default_productivity (self : Good) (stock : Stock) : Productivity :=
  match self.multiple_timesteps_to_complete with
  | some time_to_complete =>
      if (self.required_inputs).all (fun input => stock.contains input) then
        .Delayed time_to_complete
      else
        .None
  | none =>
      match self with
      | .Berries => if stock.contains .Basket then .Immediate 8 else .Immediate 4
      | .Basket => .Immediate 1
      | .Fish =>
          if stock.contains .Spear then .Immediate 10
          else if stock.contains .Boat then .Immediate 20
          else .Immediate 2
      | .Spear => .Immediate 1
      | .Timber => if stock.contains .Axe then .Immediate 2 else .None
      | .Smoker => .None -- Rust panics; unreachable (multi-step branch taken).
      | .Boat => .None -- Rust panics; unreachable (multi-step branch taken).
      | .Axe => .None -- Rust panics; unreachable (multi-step branch taken).

/-! ### The agent shell (`src/agent.rs`) -/

/-- The `stock_change` list accumulated by the loop of `Agent::consume`
(`src/agent.rs` lines 56-67): walk the consumables, taking whole buckets
while the outstanding requirement is not exceeded, and a partial amount
from the first bucket that exceeds it. -/
def consumeChanges (outstanding : Nat) : List (GoodsUnit × Nat) → List (GoodsUnit × Nat)
  | [] => []
  | (good, qty) :: rest =>
      if qty > outstanding then [(good, outstanding)]
      else (good, qty) :: consumeChanges (outstanding - qty) rest

/-- The value of `outstanding_nutritional_units` after the loop of
`Agent::consume`. -/
def consumeOutstanding (outstanding : Nat) : List (GoodsUnit × Nat) → Nat
  | [] => outstanding
  | (_, qty) :: rest =>
      if qty > outstanding then 0
      else consumeOutstanding (outstanding - qty) rest

/-- Apply one `Stock::remove`, ignoring the `Result` as `Agent::consume`
does (on an error the Rust method leaves the stock unchanged). -/
def Stock.applyRemove (self : Stock) (u : GoodsUnit) (q : Nat) : Stock :=
  match self.remove u q with
  | .ok t => t
  | .error _ => self

/-- `Agent::consume` from `src/agent.rs` (lines 50-77), acting on the
stock: returns false immediately when there are no consumables; otherwise
removes the accumulated changes and returns whether the whole requirement
was met.  The returned stock is the updated one in both cases (a failed
consume still removes what was taken). -/
def Agent.consume (s : Stock) (nutritional_units : Nat) : Bool × Stock :=
  let consumables := s.next_consumables
  if consumables.isEmpty then (false, s)
  else
    let stock_change := consumeChanges nutritional_units consumables
    let s' := stock_change.foldl (fun st p => st.applyRemove p.1 p.2) s
    (decide (consumeOutstanding nutritional_units consumables = 0), s')

/-- Modelled from the spec: `PartialGoodsUnit::new` as used by the
`Agent::act` in `src/agent.rs` is from a snapshot of `src/goods.rs` that is
not in the sources; per the spec the in-progress state starts at
`duration - 1` ("*absent* -> *in-progress(k)* for k = duration-1 down
to 1"), which also matches the repository's own tests.  (The stale
`PartialGoodsUnit::new` present in `src/goods.rs` starts at the full
duration and returns unit from `increment_production`, so it cannot be the
function `Agent::act` calls.) -/
def PartialGoodsUnit.new_spec (good : Good) : Option PartialGoodsUnit :=
  match good.multiple_timesteps_to_complete with
  | some time => some { good := good, time_to_completion := time - 1 }
  | none => none

/-- Modelled from the spec: `PartialGoodsUnit::increment_production` as
used by `Agent::act` ("`increment_production` decrements k by one
continued-work action, returning `None` at k=0 to signal completion"). -/
def PartialGoodsUnit.increment_production_spec (self : PartialGoodsUnit) :
    Option PartialGoodsUnit :=
  if self.time_to_completion ≤ 1 then none
  else some { good := self.good, time_to_completion := self.time_to_completion - 1 }

/-- `Agent::act` from `src/agent.rs` (lines 116-156), acting on the stock.
Production effects only: acquire immediate output, advance or create the
in-progress unit of a delayed good, then degrade the capital stock used.
`none` models the Rust panics (`expect` on `degrade_capital_stock` or on
`PartialGoodsUnit::new`). -/
def Agent.act (s : Stock) (action : Action) : Option Stock :=
  match action with
  | .Leisure => some s
  | .ProduceGood good =>
      let after_production : Option Stock :=
        match good.default_productivity s with
        | .Immediate qty => some (s.add (GoodsUnit.new good) qty)
        | .Delayed _ =>
            match s.get_partial_unit good with
            | some partial_good =>
                let removed := s.remove_partial_unit partial_good
                match partial_good.increment_production_spec with
                | some new_partial_good => some (removed.add_partial_unit new_partial_good)
                | none => some (removed.add (GoodsUnit.new partial_good.good) 1)
            | none =>
                match PartialGoodsUnit.new_spec good with
                | some p => some (s.add_partial_unit p)
                | none => none
        | .None => some s
      match after_production with
      | none => none
      | some s1 =>
          match s1.degrade_capital_stock action with
          | .ok s2 => some s2
          | .error _ => none

/-! ### The valuation engine (`src/valuation.rs`)

The simulate-ahead loops of the valuation engine are embedded with an
explicit fuel argument; `none` results stand for exhausted fuel or a Rust
panic, never for a value the Rust code returns. -/

/-- A termination measure for the pure-consumption trajectory: every
surviving day strictly decreases it (consumption removes units and
overnight aging shortens every consumer bucket). -/
def bucketMeasure (p : GoodsUnit × Nat) : Nat :=
  if p.1.good.is_consumer then (p.2 + 1) * (p.1.remaining_lifetime + 1) else 0

/-- Total consumption measure of a stock. -/
def consumerMeasure (s : Stock) : Nat := (s.stock.map bucketMeasure).sum

/-- The loop of `RationalAgent::count_timesteps_till_death`
(`src/valuation.rs` lines 565-573): consume the daily nutrition, stop on
death, otherwise step the stock forward one Leisure day and count it. -/
def countAux (fuel daily_nutrition : Nat) (s : Stock) : Nat :=
  match fuel with
  | 0 => 0
  | fuel + 1 =>
      let r := Agent.consume s daily_nutrition
      if r.1 then countAux fuel daily_nutrition (r.2.step_forward .Leisure) + 1
      else 0

/-- `RationalAgent::count_timesteps_till_death` from `src/valuation.rs`
(lines 559-574): survival horizon of a pure consumption trajectory from
the stock (plus one fresh unit of an optional additional good).  The fuel
`consumerMeasure + 1` is sufficient for every stock satisfying the bucket
invariant (see `countAux_stable`). -/
def RationalAgent.count_timesteps_till_death (daily_nutrition : Nat) (s : Stock)
    (additional_good : Option Good) : Nat :=
  let s0 := match additional_good with
    | some good => s.add (GoodsUnit.new good) 1
    | none => s
  countAux (consumerMeasure s0 + 1) daily_nutrition s0

/-- `RationalAgent::additional_sustenance` from `src/valuation.rs` (lines
550-554): extra survival days from one extra fresh unit of the good (the
Rust `u32` subtraction cannot underflow since an extra unit never shortens
survival). -/
def RationalAgent.additional_sustenance (daily_nutrition : Nat) (s : Stock) (good : Good) : Nat :=
  RationalAgent.count_timesteps_till_death daily_nutrition s (some good)
    - RationalAgent.count_timesteps_till_death daily_nutrition s none

/-- The loop of `RationalAgent::time_to_produce_units` (`src/valuation.rs`
lines 528-546): keep acting to produce the good until enough has been
produced; `completed` counts the finished full days.  Outer `none` is
exhausted fuel or a panic inside `act`; inner `none` is the Rust `None`
(productivity became `None`). -/
def timeToProduceAux (good : Good) (prior_qty quantity : Nat) :
    Nat → Nat → Stock → Option (Option ℚ)
  | 0, _, _ => none
  | fuel + 1, completed, dummy =>
      let productivity := good.default_productivity dummy
      if productivity = .None then some none
      else
        match Agent.act dummy (.ProduceGood good) with
        | none => none
        | some dummy' =>
            let produced_qty := dummy'.count_units good - prior_qty
            if produced_qty ≥ quantity then
              match productivity.per_unit_time with
              | none => none
              | some final_day_production =>
                  let excess := produced_qty - quantity
                  let part_day := (final_day_production - (excess : ℚ)) / final_day_production
                  some (some ((completed : ℚ) + part_day))
            else
              timeToProduceAux good prior_qty quantity fuel (completed + 1) dummy'

/-- `RationalAgent::time_to_produce_units` from `src/valuation.rs` (lines
521-547). -/
def RationalAgent.time_to_produce_units (fuel : Nat) (s : Stock) (good : Good)
    (quantity : Nat) : Option (Option ℚ) :=
  if quantity = 0 then some (some 0)
  else timeToProduceAux good (s.count_units good) quantity fuel 0 s

/-- The loop of `RationalAgent::time_to_equiv_sustenance`
(`src/valuation.rs` lines 490-510): acquire units of the alternative good
one at a time until the survival gain reaches the target, reporting the
production time of the acquired quantity; gives up (`some none`) once that
time exceeds the bound. -/
def timeToEquivAux (fuel daily_nutrition : Nat) (self : Stock) (alt_good : Good)
    (target_sustenance : Nat) (max : ℚ) (survival_time : Nat) :
    Nat → Nat → Stock → Option (Option ℚ)
  | 0, _, _ => none
  | fuel' + 1, count_units, dummy =>
      let dummy' := dummy.add (GoodsUnit.new alt_good) 1
      let count_units' := count_units + 1
      let new_survival_time :=
        countAux (consumerMeasure dummy' + 1) daily_nutrition dummy'
      let additional_survival := new_survival_time - survival_time
      match RationalAgent.time_to_produce_units fuel self alt_good count_units' with
      | none => none
      | some t =>
          if additional_survival ≥ target_sustenance then some t
          else
            match t with
            | some tv =>
                if tv > max then some none
                else timeToEquivAux fuel daily_nutrition self alt_good target_sustenance max
                  survival_time fuel' count_units' dummy'
            | none =>
                timeToEquivAux fuel daily_nutrition self alt_good target_sustenance max
                  survival_time fuel' count_units' dummy'

/-- `RationalAgent::time_to_equiv_sustenance` from `src/valuation.rs`
(lines 472-517).  Rust panics when the target sustenance is zero (outer
`none` here); capital goods give `some none` as in the source. -/
def RationalAgent.time_to_equiv_sustenance (fuel daily_nutrition : Nat) (s : Stock)
    (alt_good : Good) (target_sustenance : Nat) (max : ℚ) : Option (Option ℚ) :=
  if target_sustenance = 0 then none
  else
    match alt_good.is_consumer with
    | true =>
        match (alt_good.default_productivity s).per_unit_time with
        | some _ =>
            timeToEquivAux fuel daily_nutrition s alt_good target_sustenance max
              (RationalAgent.count_timesteps_till_death daily_nutrition s none)
              fuel 0 s
        | none => some none
    | false => some none

/-- `RationalAgent::marginal_unit_value_of_consumer_good` from
`src/valuation.rs` (lines 404-468): zero when the additional sustenance is
zero, else the minimum over all consumer goods of the time needed to
produce equivalent sustenance (initialised at the Berries production
time).  Outer `none` is a Rust panic (non-consumer argument) or exhausted
fuel. -/
def RationalAgent.marginal_unit_value_of_consumer_good (fuel daily_nutrition : Nat)
    (s : Stock) (good : Good) : Option ℚ :=
  if ¬ good.is_consumer then none
  else
    let additional_sustenance := RationalAgent.additional_sustenance daily_nutrition s good
    if additional_sustenance = 0 then some 0
    else
      match (Good.Berries.default_productivity s).per_unit_time with
      | none => none
      | some productivity_per_unit_time =>
          Good.iter.foldl
            (fun acc alt_good =>
              match acc with
              | none => none
              | some min_equiv =>
                  if alt_good = Good.Berries then some min_equiv
                  else
                    match RationalAgent.time_to_equiv_sustenance fuel daily_nutrition s
                        alt_good additional_sustenance min_equiv with
                    | none => none
                    | some (some t) => if t < min_equiv then some t else some min_equiv
                    | some none => some min_equiv)
            (some (1 / productivity_per_unit_time))

/-! ### Rewards (`src/agent.rs`, `src/lib.rs`) -/

/-- `POSITIVE_REWARD` from `src/lib.rs` (the live definition; a `= 5`
variant is commented out in the source). -/
def POSITIVE_REWARD : Int := 0

/-- `NEGATIVE_REWARD` from `src/lib.rs`. -/
def NEGATIVE_REWARD : Int := -10000

/-- `Reward` from `src/learning/reward.rs`. -/
structure Reward where
  val : Int
deriving DecidableEq, Repr

/-- The reward selected by `Agent::update_reward_history` from
`src/agent.rs` (lines 102-109). -/
def Agent.step_reward (action : Action) (is_alive : Bool) : Reward :=
  match action, is_alive with
  | .ProduceGood _, true => { val := 0 }
  | .Leisure, true => { val := POSITIVE_REWARD }
  | _, false => { val := NEGATIVE_REWARD }

/-! ### Spec-modelled lifetime improvement (claim C2)

`src/goods.rs` declares `Good::is_improved_using` and
`Good::lifetime_improvement_increment`, but no code under `src/` applies
them: the snapshot of `Stock::step_forward` in `src/stock.rs` has no
improvement rule (and cannot have one, as the goods-unit step it calls
does not see the stock).  The application site is modelled from the
spec below. -/

/-- Modelled from the spec: the bucket-boost rule of `Stock::step_forward`
("goods that are improved by some other held good ... have their
remaining_lifetime boosted, capped at the good's own maximum plus the
improvement increment, rather than merely decremented — this rule takes
precedence over ordinary aging for that bucket").  Buckets of goods
improved by a held good are boosted by the increment and capped at the
fresh-unit lifetime plus the increment; all other buckets and the
in-progress units step as in `Stock::step_forward`. -/
def Stock.step_forward_improved (self : Stock) (action : Action) : Stock :=
  { stock :=
      self.stock.filterMap (fun p =>
        match Good.iter.find? (fun g => p.1.good.is_improved_using g && self.contains g) with
        | some g =>
            let increment := g.lifetime_improvement_increment p.1.good
            let cap := (GoodsUnit.new p.1.good).remaining_lifetime + increment
            some ({ good := p.1.good,
                    remaining_lifetime := min (p.1.remaining_lifetime + increment) cap }, p.2)
        | none => (p.1.step_forward action).map (fun u => (u, p.2)))
    partial_stock := self.partial_stock.filterMap (fun p => p.step_forward action) }

/-- Modelled from the spec: the overnight goods-unit aging step.  The
snapshot of `Stock::step_forward` in `src/stock.rs` calls
`goods_unit.step_forward()` without arguments; that no-argument
`GoodsUnit::step_forward` is not in the sources (the `src/goods.rs`
snapshot has an older action-taking variant).  Per the spec, "consumer
goods and materials age by one lifetime unit unconditionally (evicted at
zero); non-material capital goods age only if `degrade_capital_stock`
determined they were used this step (handled separately, not here)". -/
def GoodsUnit.step_forward_overnight (self : GoodsUnit) : Option GoodsUnit :=
  if self.good.is_consumer || self.good.is_material then
    if self.remaining_lifetime > 1 then
      some { good := self.good, remaining_lifetime := self.remaining_lifetime - 1 }
    else
      none
  else
    some self

/-- Modelled from the spec: `Stock::step_forward` with the overnight
bucket aging (see `GoodsUnit.step_forward_overnight`); the in-progress
units step through the `PartialGoodsUnit::step_forward` of `src/goods.rs`
exactly as in the `src/stock.rs` snapshot. -/
def Stock.step_forward_overnight (self : Stock) (action : Action) : Stock :=
  { stock := self.stock.filterMap (fun p =>
      p.1.step_forward_overnight.map (fun u => (u, p.2)))
    partial_stock := self.partial_stock.filterMap (fun p => p.step_forward action) }

/-- One full production day repeated `n` times: `Agent::act` to produce
the good, then the overnight stock step under the same action (the
continued-production day cycle of `Agent::step_forward`, without the
nutrition consumption that is orthogonal to production). -/
def produceRun (good : Good) (s : Stock) : Nat → Option Stock
  | 0 => some s
  | n + 1 =>
      (produceRun good s n).bind fun t =>
        (Agent.act t (.ProduceGood good)).map fun t' =>
          t'.step_forward_overnight (.ProduceGood good)

/-- The consumer-goods profile of a stock: total quantity held in consumer
buckets with remaining lifetime at least `t`.  (`cntGE 0` is the total
nutritional content.) -/
def Stock.cntGE (s : Stock) (t : Nat) : Nat :=
  ((s.stock.filter (fun p => p.1.good.is_consumer && t ≤ p.1.remaining_lifetime)).map
    (fun p => p.2)).sum

/-- Total quantity of a bucket list. -/
def listTotal (l : List (GoodsUnit × Nat)) : Nat := (l.map (fun p => p.2)).sum

/-- Total quantity in buckets with remaining lifetime at least `t`. -/
def listGE (t : Nat) (l : List (GoodsUnit × Nat)) : Nat :=
  ((l.filter (fun p => t ≤ p.1.remaining_lifetime)).map (fun p => p.2)).sum

/-- Total quantity in buckets with remaining lifetime below `t`. -/
def listLT (t : Nat) (l : List (GoodsUnit × Nat)) : Nat :=
  ((l.filter (fun p => p.1.remaining_lifetime < t)).map (fun p => p.2)).sum

/-- Total quantity in consumer buckets with remaining lifetime at least
`t` (the list form of `Stock.cntGE`). -/
def listCntGE (t : Nat) (l : List (GoodsUnit × Nat)) : Nat :=
  ((l.filter (fun p => p.1.good.is_consumer && t ≤ p.1.remaining_lifetime)).map
    (fun p => p.2)).sum

/-- Bucket lists ordered by ascending remaining lifetime. -/
abbrev SortedByLife (l : List (GoodsUnit × Nat)) : Prop :=
  l.Pairwise (fun a b => a.1.remaining_lifetime ≤ b.1.remaining_lifetime)

/-! ### The bucket invariant and basic goods-map lemmas -/

/-- The consumer-bucket part of the map invariant: consumer bucket keys
are unique and consumer buckets hold positive quantities.  (Unlike the
full invariant this part is preserved by the overnight step even on
degenerate stocks.) -/
def Stock.consumer_inv (s : Stock) : Prop :=
  ((s.stock.filter (fun p => p.1.good.is_consumer)).map Prod.fst).Nodup ∧
  ∀ p ∈ s.stock, p.1.good.is_consumer = true → 0 < p.2

/-- The map invariant of a `Stock` built through the public operations:
bucket keys are unique (as in a `HashMap`) and every bucket holds a
positive quantity (the spec's "quantity per bucket is always > 0"). -/
def Stock.inv (s : Stock) : Prop :=
  (s.stock.map Prod.fst).Nodup ∧ ∀ p ∈ s.stock, 0 < p.2

theorem GoodsMap.get_eq_none_iff (m : GoodsMap) (k : GoodsUnit) :
    m.get k = none ↔ ∀ p ∈ m, p.1 ≠ k := by
  simp [GoodsMap.get, List.find?_eq_none]

theorem GoodsMap.any_key_eq_false (m : GoodsMap) (k : GoodsUnit)
    (h : m.get k = none) : m.any (fun p => p.1 = k) = false := by
  rw [GoodsMap.get_eq_none_iff] at h
  simp only [List.any_eq_false]
  intro p hp
  simpa using h p hp

theorem GoodsMap.any_key_eq_true (m : GoodsMap) (k : GoodsUnit) (v : Nat)
    (h : m.get k = some v) : m.any (fun p => p.1 = k) = true := by
  simp only [GoodsMap.get, Option.map_eq_some'] at h
  obtain ⟨p, hp, hv⟩ := h
  have hmem := List.mem_of_find?_eq_some hp
  have hkey : p.1 = k := by
    have := List.find?_some hp
    simpa using this
  simp only [List.any_eq_true]
  exact ⟨p, hmem, by simp [hkey]⟩

theorem GoodsMap.get_cons (p : GoodsUnit × Nat) (m : GoodsMap) (k : GoodsUnit) :
    GoodsMap.get (p :: m) k = if p.1 = k then some p.2 else m.get k := by
  by_cases hp : p.1 = k <;> simp [GoodsMap.get, List.find?_cons, hp]

theorem GoodsMap.get_replace_self (m : GoodsMap) (k : GoodsUnit) (v : Nat)
    (h : m.any (fun p => p.1 = k) = true) :
    GoodsMap.get (m.map (fun p => if p.1 = k then (k, v) else p)) k = some v := by
  induction m with
  | nil => simp at h
  | cons p rest ih =>
      by_cases hp : p.1 = k
      · simp [GoodsMap.get_cons, hp]
      · simp only [List.any_cons, Bool.or_eq_true, decide_eq_true_eq] at h
        rcases h with h | h
        · exact absurd h hp
        · simpa [GoodsMap.get_cons, hp] using ih h

theorem GoodsMap.get_replace_ne (m : GoodsMap) (k k' : GoodsUnit) (v : Nat)
    (h : k' ≠ k) :
    GoodsMap.get (m.map (fun p => if p.1 = k then (k, v) else p)) k' = m.get k' := by
  induction m with
  | nil => simp [GoodsMap.get]
  | cons p rest ih =>
      by_cases hp : p.1 = k
      · have hp' : p.1 ≠ k' := by rw [hp]; exact fun hh => h hh.symm
        simp [GoodsMap.get_cons, hp, hp', Ne.symm h, ih]
      · by_cases hp' : p.1 = k'
        · simp [GoodsMap.get_cons, hp, hp', h]
        · simp [GoodsMap.get_cons, hp, hp', ih]

theorem GoodsMap.get_append_self (m : GoodsMap) (k : GoodsUnit) (v : Nat)
    (h : m.get k = none) : GoodsMap.get (m ++ [(k, v)]) k = some v := by
  induction m with
  | nil => simp [GoodsMap.get, List.find?]
  | cons p rest ih =>
      rw [GoodsMap.get_cons] at h
      by_cases hp : p.1 = k
      · simp [hp] at h
      · simp only [hp, if_false] at h
        simpa [List.cons_append, GoodsMap.get_cons, hp] using ih h

theorem GoodsMap.get_append_ne (m : GoodsMap) (k k' : GoodsUnit) (v : Nat)
    (h : k' ≠ k) : GoodsMap.get (m ++ [(k, v)]) k' = m.get k' := by
  induction m with
  | nil => simp [GoodsMap.get, List.find?, Ne.symm h]
  | cons p rest ih =>
      by_cases hp : p.1 = k'
      · simp [List.cons_append, GoodsMap.get_cons, hp]
      · simpa [List.cons_append, GoodsMap.get_cons, hp] using ih

theorem GoodsMap.get_insert_self (m : GoodsMap) (k : GoodsUnit) (v : Nat) :
    (m.insert k v).get k = some v := by
  unfold GoodsMap.insert
  by_cases h : m.any (fun p => p.1 = k) = true
  · simpa [h] using GoodsMap.get_replace_self m k v h
  · have hnone : m.get k = none := by
      rw [GoodsMap.get_eq_none_iff]
      intro p hp hk
      simp only [List.any_eq_true, decide_eq_true_eq] at h
      exact h ⟨p, hp, hk⟩
    simpa [h] using GoodsMap.get_append_self m k v hnone

theorem GoodsMap.get_insert_ne (m : GoodsMap) (k k' : GoodsUnit) (v : Nat)
    (h : k' ≠ k) : (m.insert k v).get k' = m.get k' := by
  unfold GoodsMap.insert
  by_cases hc : m.any (fun p => p.1 = k) = true
  · simpa [hc] using GoodsMap.get_replace_ne m k k' v h
  · simpa [hc] using GoodsMap.get_append_ne m k k' v h

theorem GoodsMap.get_erase_self (m : GoodsMap) (k : GoodsUnit) :
    (m.erase k).get k = none := by
  rw [GoodsMap.get_eq_none_iff]
  intro p hp
  unfold GoodsMap.erase at hp
  have := List.of_mem_filter hp
  simpa using this

theorem GoodsMap.get_erase_ne (m : GoodsMap) (k k' : GoodsUnit)
    (h : k' ≠ k) : (m.erase k).get k' = m.get k' := by
  unfold GoodsMap.erase
  induction m with
  | nil => simp [GoodsMap.get]
  | cons p rest ih =>
      by_cases hp : p.1 = k
      · have hp' : p.1 ≠ k' := by rw [hp]; exact fun hh => h hh.symm
        simpa [List.filter_cons, hp, GoodsMap.get_cons, hp', h, Ne.symm h] using ih
      · by_cases hp' : p.1 = k'
        · simp [List.filter_cons, hp, GoodsMap.get_cons, hp', h, Ne.symm h]
        · simpa [List.filter_cons, hp, GoodsMap.get_cons, hp', h, Ne.symm h] using ih

theorem GoodsMap.mem_of_get (m : GoodsMap) (k : GoodsUnit) (v : Nat)
    (h : m.get k = some v) : (k, v) ∈ m := by
  simp only [GoodsMap.get, Option.map_eq_some'] at h
  obtain ⟨p, hp, hv⟩ := h
  have hmem := List.mem_of_find?_eq_some hp
  have hkey : p.1 = k := by simpa using List.find?_some hp
  have : p = (k, v) := by
    cases p
    simp only at hkey hv
    simp [hkey, hv]
  exact this ▸ hmem

theorem GoodsMap.erase_eq_self (m : GoodsMap) (k : GoodsUnit)
    (h : m.get k = none) : m.erase k = m := by
  rw [GoodsMap.get_eq_none_iff] at h
  unfold GoodsMap.erase
  apply List.filter_eq_self.mpr
  intro p hp
  simpa using h p hp

theorem list_map_id_of {α : Type} (l : List α) (f : α → α)
    (h : ∀ x ∈ l, f x = x) : l.map f = l := by
  induction l with
  | nil => rfl
  | cons x xs ih =>
      simp only [List.map_cons, h x (by simp), ih (fun y hy => h y (by simp [hy]))]

theorem GoodsMap.replace_eq_self (m : GoodsMap) (k : GoodsUnit) (v : Nat)
    (hnd : (m.map Prod.fst).Nodup) (h : m.get k = some v) :
    m.map (fun p => if p.1 = k then (k, v) else p) = m := by
  induction m with
  | nil => simp [GoodsMap.get] at h
  | cons p rest ih =>
      rw [GoodsMap.get_cons] at h
      simp only [List.map_cons, List.nodup_cons] at hnd
      by_cases hp : p.1 = k
      · simp [hp] at h
        have hpair : p = (k, v) := by
          cases p
          simp only at hp h
          simp [hp, h]
        have hrest : rest.map (fun p => if p.1 = k then (k, v) else p) = rest := by
          apply list_map_id_of
          intro q hq
          have : q.1 ≠ k := by
            intro hk
            apply hnd.1
            rw [hp, ← hk]
            exact List.mem_map_of_mem Prod.fst hq
          simp [this]
        simp [hp, hpair, hrest]
      · simp only [hp, if_neg] at h ⊢
        simp [hp, ih hnd.2 (by simpa [hp] using h)]

theorem GoodsMap.insert_insert (m : GoodsMap) (k : GoodsUnit) (a b : Nat) :
    (m.insert k a).insert k b = m.insert k b := by
  by_cases h : m.any (fun p => p.1 = k) = true
  · have h1 : GoodsMap.insert m k a = m.map (fun p => if p.1 = k then (k, a) else p) := by
      simp [GoodsMap.insert, h]
    have h2 : (m.map (fun p => if p.1 = k then (k, a) else p)).any
        (fun p => p.1 = k) = true := by
      simp only [List.any_eq_true, decide_eq_true_eq] at h ⊢
      obtain ⟨p, hp, hk⟩ := h
      exact ⟨(k, a), List.mem_map.mpr ⟨p, hp, by simp [hk]⟩, rfl⟩
    rw [h1]
    rw [show GoodsMap.insert (m.map (fun p => if p.1 = k then (k, a) else p)) k b
        = (m.map (fun p => if p.1 = k then (k, a) else p)).map
            (fun p => if p.1 = k then (k, b) else p) by simp [GoodsMap.insert, h2]]
    rw [show GoodsMap.insert m k b
        = m.map (fun p => if p.1 = k then (k, b) else p) by simp [GoodsMap.insert, h]]
    rw [List.map_map]
    apply List.map_congr_left
    intro p _
    by_cases hp : p.1 = k <;> simp [hp]
  · have hkeys : ∀ p ∈ m, p.1 ≠ k := by
      intro p hp hk
      simp only [List.any_eq_true, decide_eq_true_eq] at h
      exact h ⟨p, hp, hk⟩
    have h1 : GoodsMap.insert m k a = m ++ [(k, a)] := by simp [GoodsMap.insert, h]
    have h2 : (m ++ [(k, a)]).any (fun p => p.1 = k) = true := by
      simp only [List.any_eq_true, decide_eq_true_eq]
      exact ⟨(k, a), by simp, rfl⟩
    rw [h1]
    rw [show GoodsMap.insert (m ++ [(k, a)]) k b
        = (m ++ [(k, a)]).map (fun p => if p.1 = k then (k, b) else p) by
      simp [GoodsMap.insert, h2]]
    rw [show GoodsMap.insert m k b = m ++ [(k, b)] by simp [GoodsMap.insert, h]]
    rw [List.map_append]
    congr 1
    · exact list_map_id_of m _ (fun p hp => by simp [hkeys p hp])
    · simp

/-- C5: `Stock::remove` fails with `InsufficientStock` (performing no
mutation, so the caller's stock is exactly as it was) when the bucket for
the exact key is absent or holds strictly less than requested; otherwise
it succeeds, decrementing the bucket and deleting it entirely exactly when
its quantity reaches zero, leaving every other bucket and the in-progress
units untouched. -/
theorem C5_remove_insufficient_or_decrement (s : Stock) (u : GoodsUnit) (q : Nat) :
    ((s.stock.get u = none ∨ ∃ m, s.stock.get u = some m ∧ m < q) →
        s.remove u q = .error .InsufficientStock) ∧
    (∀ m, s.stock.get u = some m → q ≤ m →
        ∃ s', s.remove u q = .ok s' ∧
          s'.stock.get u = (if m = q then none else some (m - q)) ∧
          (∀ k, k ≠ u → s'.stock.get k = s.stock.get k) ∧
          s'.partial_stock = s.partial_stock) := by
  constructor
  · rintro (h | ⟨m, hm, hlt⟩)
    · simp [Stock.remove, h]
    · simp only [Stock.remove, hm]
      rw [if_neg (by omega), if_neg (by omega)]
  · intro m hm hq
    by_cases hgt : m > q
    · refine ⟨{ s with stock := s.stock.insert u (m - q) }, ?_, ?_, ?_, rfl⟩
      · simp only [Stock.remove, hm]
        rw [if_pos hgt]
      · rw [GoodsMap.get_insert_self, if_neg (by omega)]
      · intro k hk
        exact GoodsMap.get_insert_ne _ _ _ _ hk
    · have heq : m = q := by omega
      refine ⟨{ s with stock := s.stock.erase u }, ?_, ?_, ?_, rfl⟩
      · simp only [Stock.remove, hm]
        rw [if_neg (by omega), if_pos heq]
      · rw [GoodsMap.get_erase_self, if_pos heq]
      · intro k hk
        exact GoodsMap.get_erase_ne _ _ _ hk

/-- C5 witness: a concrete application of both branches. -/
theorem C5_remove_insufficient_or_decrement_witness :
    (Stock.default.add ⟨.Berries, 10⟩ 2).remove ⟨.Berries, 10⟩ 5
        = .error .InsufficientStock ∧
    ∃ s', (Stock.default.add ⟨.Berries, 10⟩ 2).remove ⟨.Berries, 10⟩ 2 = .ok s' ∧
      s'.stock.get ⟨.Berries, 10⟩ = none := by
  constructor
  · exact (C5_remove_insufficient_or_decrement
      (Stock.default.add ⟨.Berries, 10⟩ 2) ⟨.Berries, 10⟩ 5).1
      (Or.inr ⟨2, by decide, by decide⟩)
  · obtain ⟨s', h1, h2, _, _⟩ := (C5_remove_insufficient_or_decrement
      (Stock.default.add ⟨.Berries, 10⟩ 2) ⟨.Berries, 10⟩ 2).2 2 (by decide) (by decide)
    exact ⟨s', h1, by simpa using h2⟩

/-- C6: on a stock satisfying the bucket invariant, `add` of a positive
quantity followed by `remove` of the same key and quantity is the
identity, both when the key was absent (the fresh bucket is deleted) and
when it merged into an existing bucket (the decrement restores it). -/
theorem C6_add_remove_roundtrip (s : Stock) (u : GoodsUnit) (q : Nat)
    (hinv : s.inv) (hq : 0 < q) : (s.add u q).remove u q = .ok s := by
  obtain ⟨hnd, hpos⟩ := hinv
  cases hm : s.stock.get u with
  | none =>
      have hadd : s.add u q = { s with stock := s.stock ++ [(u, q)] } := by
        simp [Stock.add, hm, GoodsMap.insert, GoodsMap.any_key_eq_false s.stock u hm]
      rw [hadd]
      have hget : GoodsMap.get (s.stock ++ [(u, q)]) u = some q :=
        GoodsMap.get_append_self s.stock u q hm
      simp only [Stock.remove, hget]
      rw [if_neg (by omega), if_pos trivial]
      have : GoodsMap.erase (s.stock ++ [(u, q)]) u = s.stock := by
        unfold GoodsMap.erase
        rw [List.filter_append]
        rw [List.filter_eq_self.mpr (by
          intro p hp
          rw [GoodsMap.get_eq_none_iff] at hm
          simpa using hm p hp)]
        simp
      rw [this]
  | some m0 =>
      have hm0 : 0 < m0 := hpos _ (GoodsMap.mem_of_get s.stock u m0 hm)
      have hadd : s.add u q = { s with stock := s.stock.insert u (q + m0) } := by
        simp [Stock.add, hm]
      rw [hadd]
      have hget : (s.stock.insert u (q + m0)).get u = some (q + m0) :=
        GoodsMap.get_insert_self s.stock u (q + m0)
      simp only [Stock.remove, hget]
      rw [if_pos (by omega)]
      have hii : (s.stock.insert u (q + m0)).insert u (q + m0 - q)
          = s.stock.insert u (q + m0 - q) := GoodsMap.insert_insert s.stock u (q + m0) _
      rw [hii]
      have hsub : q + m0 - q = m0 := by omega
      rw [hsub]
      have hrepl : s.stock.insert u m0 = s.stock := by
        have hany := GoodsMap.any_key_eq_true s.stock u m0 hm
        simp only [GoodsMap.insert, hany, if_true]
        exact GoodsMap.replace_eq_self s.stock u m0 hnd hm
      rw [hrepl]

/-- C6 witness: round trip at a fresh key and at a merged key. -/
theorem C6_add_remove_roundtrip_witness :
    ((Stock.default.add ⟨.Berries, 10⟩ 3).add ⟨.Fish, 1⟩ 2).remove ⟨.Fish, 1⟩ 2
        = .ok (Stock.default.add ⟨.Berries, 10⟩ 3) ∧
    ((Stock.default.add ⟨.Berries, 10⟩ 3).add ⟨.Berries, 10⟩ 4).remove ⟨.Berries, 10⟩ 4
        = .ok (Stock.default.add ⟨.Berries, 10⟩ 3) := by
  constructor
  · exact C6_add_remove_roundtrip (Stock.default.add ⟨.Berries, 10⟩ 3) ⟨.Fish, 1⟩ 2
      (by constructor <;> decide) (by decide)
  · exact C6_add_remove_roundtrip (Stock.default.add ⟨.Berries, 10⟩ 3) ⟨.Berries, 10⟩ 4
      (by constructor <;> decide) (by decide)

/-- C1 (code-bug evidence): stepping a stock holding one Timber bucket at
remaining lifetime 1 forward under Leisure does age the material bucket by
one unit, but the resulting stock retains a bucket with remaining_lifetime
exactly 0 — the eviction-at-zero the claim (and the function's own
comment, "as if it were a consumer good") requires does not happen on the
material-not-used-in-production path of `GoodsUnit::step_forward`. -/
theorem C1_zero_lifetime_material_bucket_kept :
    (Stock.default.add ⟨.Timber, 1⟩ 1).step_forward .Leisure
      = { stock := [(⟨.Timber, 0⟩, 1)], partial_stock := [] } ∧
    GoodsMap.get ((Stock.default.add ⟨.Timber, 1⟩ 1).step_forward .Leisure).stock ⟨.Timber, 0⟩
      = some 1 ∧
    Good.Timber.is_material = true := by decide

/-- C3 (counterexample): with both a Spear and a Boat in stock,
`default_productivity` of Fish returns `Immediate 10` (the Spear arm is
checked first in the source), not the claimed `Immediate 20`. -/
theorem C3_spear_checked_before_boat :
    Good.Fish.default_productivity
        ((Stock.default.add (GoodsUnit.new .Spear) 1).add (GoodsUnit.new .Boat) 1)
      = .Immediate 10 ∧
    Good.Fish.default_productivity
        ((Stock.default.add (GoodsUnit.new .Spear) 1).add (GoodsUnit.new .Boat) 1)
      ≠ .Immediate 20 := by decide

/-- C3 (amended): the enabling capital goods of an immediately-producible
good are evaluated in the source's fixed order — for Fish the Spear
(boost 10) before the Boat (boost 20) — so with a Spear present the
productivity is `Immediate 10` regardless of a Boat, a Boat alone gives
`Immediate 20`, and neither gives `Immediate 2`. -/
theorem C3_fish_enabler_order (s : Stock) :
    (s.contains .Spear = true → Good.Fish.default_productivity s = .Immediate 10) ∧
    (s.contains .Spear = false → s.contains .Boat = true →
        Good.Fish.default_productivity s = .Immediate 20) ∧
    (s.contains .Spear = false → s.contains .Boat = false →
        Good.Fish.default_productivity s = .Immediate 2) := by
  refine ⟨fun h1 => ?_, fun h1 h2 => ?_, fun h1 h2 => ?_⟩ <;>
    simp [Good.default_productivity, Good.multiple_timesteps_to_complete, h1, *]

/-- C3 amended-claim witness. -/
theorem C3_fish_enabler_order_witness :
    Good.Fish.default_productivity
        ((Stock.default.add (GoodsUnit.new .Spear) 1).add (GoodsUnit.new .Boat) 1)
      = .Immediate 10 ∧
    Good.Fish.default_productivity (Stock.default.add (GoodsUnit.new .Boat) 1)
      = .Immediate 20 :=
  ⟨(C3_fish_enabler_order _).1 (by decide),
   (C3_fish_enabler_order _).2.1 (by decide) (by decide)⟩

/-- C9 (counterexample): the reward recorded for Leisure while alive is
`POSITIVE_REWARD = 0`, not strictly positive. -/
theorem C9_leisure_reward_is_zero :
    Agent.step_reward .Leisure true = { val := POSITIVE_REWARD } ∧
    POSITIVE_REWARD = 0 ∧ ¬ 0 < (Agent.step_reward .Leisure true).val := by
  refine ⟨rfl, rfl, ?_⟩
  decide

/-- C9 (amended): the per-step reward is 0 for a production action while
alive, `POSITIVE_REWARD` (which the live source sets to 0) for Leisure
while alive, and the large negative `NEGATIVE_REWARD = -10000` when the
agent dies in that step. -/
theorem C9_step_reward_values (g : Good) (a : Action) :
    Agent.step_reward (.ProduceGood g) true = { val := 0 } ∧
    Agent.step_reward .Leisure true = { val := POSITIVE_REWARD } ∧
    POSITIVE_REWARD = 0 ∧
    Agent.step_reward a false = { val := NEGATIVE_REWARD } ∧
    NEGATIVE_REWARD = -10000 ∧ NEGATIVE_REWARD < -1000 := by
  cases a <;> simp [Agent.step_reward, POSITIVE_REWARD, NEGATIVE_REWARD]

/-- C2 (spec-modelled): in the modelled step with the lifetime-improvement
rule, a bucket of a good improved by some other held good (fish held with
a smoker) is boosted to `min (lifetime + increment) (maximum + increment)`
— capped at the good's own fresh-unit maximum plus the increment — taking
precedence over ordinary aging, and (whenever the bucket respects the
fresh-unit maximum) its lifetime never decreases. -/
theorem C2_improved_bucket_boosted (s : Stock) (action : Action)
    (p : GoodsUnit × Nat) (g : Good) (hp : p ∈ s.stock)
    (himp : p.1.good.is_improved_using g = true) (hheld : s.contains g = true) :
    ((⟨p.1.good,
        min (p.1.remaining_lifetime + g.lifetime_improvement_increment p.1.good)
          ((GoodsUnit.new p.1.good).remaining_lifetime
            + g.lifetime_improvement_increment p.1.good)⟩ : GoodsUnit), p.2)
      ∈ (s.step_forward_improved action).stock ∧
    (p.1.remaining_lifetime ≤ (GoodsUnit.new p.1.good).remaining_lifetime →
      p.1.remaining_lifetime ≤
        min (p.1.remaining_lifetime + g.lifetime_improvement_increment p.1.good)
          ((GoodsUnit.new p.1.good).remaining_lifetime
            + g.lifetime_improvement_increment p.1.good)) := by
  have hfish : p.1.good = .Fish ∧ g = .Smoker := by
    cases hgood : p.1.good <;> cases hg : g <;>
      simp [hgood, hg, Good.is_improved_using] at himp ⊢
  obtain ⟨hgood, hg⟩ := hfish
  subst hg
  constructor
  · simp only [Stock.step_forward_improved]
    refine List.mem_filterMap.mpr ⟨p, hp, ?_⟩
    have hfind : Good.iter.find?
        (fun g' => p.1.good.is_improved_using g' && s.contains g') = some Good.Smoker := by
      rw [hgood]
      simp [Good.iter, List.find?_cons, Good.is_improved_using, hheld]
    simp [hfind]
  · intro hmax
    omega

/-- C2 witness: two fish one day from expiry held with a smoker are
boosted to the cap (fresh-fish lifetime 1 plus increment 20). -/
theorem C2_improved_bucket_boosted_witness :
    ((⟨.Fish, 21⟩ : GoodsUnit), 2)
      ∈ (((Stock.default.add ⟨.Fish, 1⟩ 2).add (GoodsUnit.new .Smoker) 1).step_forward_improved
          .Leisure).stock := by
  have h := C2_improved_bucket_boosted
    ((Stock.default.add ⟨.Fish, 1⟩ 2).add (GoodsUnit.new .Smoker) 1) .Leisure
    (⟨.Fish, 1⟩, 2) .Smoker (by decide) (by decide) (by decide)
  simpa using h.1

/-- C4 (counterexample): a discontinuity that pushes a partial Smoker's
time_to_completion from 2 back to the full duration 3 does NOT delete it —
the partial unit is retained at time_to_completion 3 (it is only deleted
by a further discontinuity occurring at the full duration). -/
theorem C4_pushback_to_duration_retained :
    Good.Smoker.multiple_timesteps_to_complete = some 3 ∧
    (⟨.Smoker, 2⟩ : PartialGoodsUnit).step_forward .Leisure = some ⟨.Smoker, 3⟩ ∧
    ((Stock.default.add_partial_unit ⟨.Smoker, 2⟩).step_forward .Leisure).get_partial_unit .Smoker
      = some ⟨.Smoker, 3⟩ := by decide

/-- C4 (amended): producing a multi-step good every consecutive day
completes it in exactly `multiple_timesteps_to_complete` actions (shown
for each multi-step good of the catalog from a stock satisfying its
production preconditions, with no completion after fewer actions), and a
partial unit hit by a discontinuity is retained with
`time_to_completion + 1` — deleted only when its time_to_completion
already equals the full duration (pushed beyond it, not back to it). -/
theorem C4_completion_and_discontinuity :
    ((produceRun .Smoker (Stock.default.add (GoodsUnit.new .Timber) 3) 3).map
        (fun t => (t.contains .Smoker, t.get_partial_unit .Smoker)) = some (true, none) ∧
      (produceRun .Smoker (Stock.default.add (GoodsUnit.new .Timber) 3) 2).map
        (fun t => t.contains .Smoker) = some false ∧
      (produceRun .Axe Stock.default 2).map
        (fun t => (t.contains .Axe, t.get_partial_unit .Axe)) = some (true, none) ∧
      (produceRun .Axe Stock.default 1).map
        (fun t => t.contains .Axe) = some false ∧
      (produceRun .Boat (Stock.default.add (GoodsUnit.new .Timber) 10) 10).map
        (fun t => (t.contains .Boat, t.get_partial_unit .Boat)) = some (true, none) ∧
      (produceRun .Boat (Stock.default.add (GoodsUnit.new .Timber) 10) 9).map
        (fun t => t.contains .Boat) = some false) ∧
    (∀ (p : PartialGoodsUnit) (a : Action) (d : Nat),
      p.good.multiple_timesteps_to_complete = some d →
      (∀ g, a = .ProduceGood g → g ≠ p.good) →
      p.step_forward a =
        if p.time_to_completion = d then none
        else some ⟨p.good, p.time_to_completion + 1⟩) := by
  constructor
  · refine ⟨?_, ?_, ?_, ?_, ?_, ?_⟩ <;> decide
  · intro p a d hd ha
    cases a with
    | Leisure => simp [PartialGoodsUnit.step_forward, hd]
    | ProduceGood g =>
        have hg : g ≠ p.good := ha g rfl
        simp [PartialGoodsUnit.step_forward, hd, hg]

/-- C4 amended-claim witness: the discontinuity rule applied at a partial
Smoker sitting at the full duration 3 (deleted) and at 2 (retained). -/
theorem C4_completion_and_discontinuity_witness :
    (⟨.Smoker, 3⟩ : PartialGoodsUnit).step_forward .Leisure = none ∧
    (⟨.Smoker, 2⟩ : PartialGoodsUnit).step_forward .Leisure = some ⟨.Smoker, 3⟩ := by
  constructor
  · have h := C4_completion_and_discontinuity.2 ⟨.Smoker, 3⟩ .Leisure 3 (by decide)
      (fun g hg => by cases hg)
    simpa using h
  · have h := C4_completion_and_discontinuity.2 ⟨.Smoker, 2⟩ .Leisure 3 (by decide)
      (fun g hg => by cases hg)
    simpa using h

/-! ### Sorting and greedy-consumption list lemmas -/

theorem insertByLifetime_perm (p : GoodsUnit × Nat) (l : List (GoodsUnit × Nat)) :
    List.Perm (insertByLifetime p l) (p :: l) := by
  induction l with
  | nil => simp [insertByLifetime]
  | cons q rest ih =>
      unfold insertByLifetime
      by_cases h : q.1.remaining_lifetime < p.1.remaining_lifetime
      · rw [if_pos h]
        exact (ih.cons q).trans (List.Perm.swap p q rest)
      · rw [if_neg h]

theorem sortByLifetime_perm (l : List (GoodsUnit × Nat)) :
    List.Perm (sortByLifetime l) l := by
  induction l with
  | nil => simp [sortByLifetime]
  | cons p rest ih =>
      exact (insertByLifetime_perm p (sortByLifetime rest)).trans (ih.cons p)

theorem insertByLifetime_sorted (p : GoodsUnit × Nat) (l : List (GoodsUnit × Nat))
    (h : SortedByLife l) : SortedByLife (insertByLifetime p l) := by
  induction l with
  | nil => simp [insertByLifetime, SortedByLife]
  | cons q rest ih =>
      unfold insertByLifetime
      rcases h with _ | ⟨hq, hrest⟩
      by_cases hlt : q.1.remaining_lifetime < p.1.remaining_lifetime
      · rw [if_pos hlt]
        refine List.Pairwise.cons ?_ (ih hrest)
        intro b hb
        rcases List.mem_cons.mp ((insertByLifetime_perm p rest).mem_iff.mp hb) with hb | hb
        · exact hb ▸ le_of_lt hlt
        · exact hq b hb
      · rw [if_neg hlt]
        refine List.Pairwise.cons ?_ (List.Pairwise.cons hq hrest)
        intro b hb
        rcases List.mem_cons.mp hb with hb | hb
        · exact hb ▸ le_of_not_lt hlt
        · exact le_trans (le_of_not_lt hlt) (hq b hb)

theorem sortByLifetime_sorted (l : List (GoodsUnit × Nat)) :
    SortedByLife (sortByLifetime l) := by
  induction l with
  | nil => exact List.Pairwise.nil
  | cons p rest ih => exact insertByLifetime_sorted p (sortByLifetime rest) ih

theorem listTotal_cons (p : GoodsUnit × Nat) (l : List (GoodsUnit × Nat)) :
    listTotal (p :: l) = p.2 + listTotal l := by
  simp [listTotal]

theorem listGE_cons (t : Nat) (p : GoodsUnit × Nat) (l : List (GoodsUnit × Nat)) :
    listGE t (p :: l) =
      (if t ≤ p.1.remaining_lifetime then p.2 else 0) + listGE t l := by
  by_cases h : t ≤ p.1.remaining_lifetime
  · simp [listGE, List.filter_cons, h]
  · simp [listGE, List.filter_cons, h]

theorem listLT_cons (t : Nat) (p : GoodsUnit × Nat) (l : List (GoodsUnit × Nat)) :
    listLT t (p :: l) =
      (if p.1.remaining_lifetime < t then p.2 else 0) + listLT t l := by
  by_cases h : p.1.remaining_lifetime < t
  · simp [listLT, List.filter_cons, h]
  · simp [listLT, List.filter_cons, h]

theorem consumeOutstanding_eq (n : Nat) (l : List (GoodsUnit × Nat)) :
    consumeOutstanding n l = n - listTotal l := by
  induction l generalizing n with
  | nil => simp [consumeOutstanding, listTotal]
  | cons p rest ih =>
      cases p with
      | mk u q =>
          unfold consumeOutstanding
          rw [listTotal_cons]
          by_cases h : q > n
          · rw [if_pos h]
            omega
          · rw [if_neg h, ih]
            omega

theorem listTotal_consumeChanges (n : Nat) (l : List (GoodsUnit × Nat)) :
    listTotal (consumeChanges n l) = min n (listTotal l) := by
  induction l generalizing n with
  | nil => simp [consumeChanges, listTotal]
  | cons p rest ih =>
      cases p with
      | mk u q =>
          unfold consumeChanges
          rw [listTotal_cons]
          by_cases h : q > n
          · rw [if_pos h, show listTotal [((u : GoodsUnit), n)] = n by simp [listTotal]]
            omega
          · rw [if_neg h, listTotal_cons, ih]
            simp only
            omega

theorem listTotal_eq_ge_add_lt (t : Nat) (l : List (GoodsUnit × Nat)) :
    listTotal l = listGE t l + listLT t l := by
  induction l with
  | nil => simp [listTotal, listGE, listLT]
  | cons p rest ih =>
      rw [listTotal_cons, listGE_cons, listLT_cons, ih]
      by_cases h : t ≤ p.1.remaining_lifetime
      · rw [if_pos h, if_neg (by omega)]
        omega
      · rw [if_neg h, if_pos (by omega)]
        omega

theorem listGE_consumeChanges (t n : Nat) (l : List (GoodsUnit × Nat))
    (hs : SortedByLife l) :
    listGE t (consumeChanges n l) = min n (listTotal l) - listLT t l := by
  induction l generalizing n with
  | nil => simp [consumeChanges, listGE, listLT, listTotal]
  | cons p rest ih =>
      rcases hs with _ | ⟨hmin, hrest⟩
      cases p with
      | mk u q =>
          by_cases hlife : t ≤ u.remaining_lifetime
          · have hlowrest : listLT t rest = 0 := by
              unfold listLT
              rw [List.filter_eq_nil.mpr (by
                intro b hb
                have := hmin b hb
                simp only [decide_eq_true_eq]
                simp only at this
                omega)]
              simp
            have hlow : listLT t ((u, q) :: rest) = 0 := by
              rw [listLT_cons, if_neg (by simp only; omega), hlowrest]
            unfold consumeChanges
            by_cases h : q > n
            · rw [if_pos h, hlow,
                show listGE t [((u : GoodsUnit), n)] = n by
                  simp [listGE, List.filter_cons, hlife], listTotal_cons]
              simp only
              omega
            · rw [if_neg h, listGE_cons, if_pos (by simpa using hlife), ih _ hrest,
                hlow, hlowrest, listTotal_cons]
              simp only
              omega
          · have hlow : listLT t ((u, q) :: rest)
                = q + listLT t rest := by
              rw [listLT_cons, if_pos (by simp only; omega)]
            unfold consumeChanges
            by_cases h : q > n
            · rw [if_pos h, hlow,
                show listGE t [((u : GoodsUnit), n)] = 0 by
                  simp [listGE, List.filter_cons, hlife], listTotal_cons]
              simp only
              omega
            · rw [if_neg h, listGE_cons, if_neg (by simpa using hlife), ih _ hrest,
                hlow, listTotal_cons]
              simp only
              omega

theorem consumeChanges_keys_front (n : Nat) (l : List (GoodsUnit × Nat)) :
    ((consumeChanges n l).map Prod.fst).IsPrefix (l.map Prod.fst) := by
  induction l generalizing n with
  | nil => simp [consumeChanges]
  | cons p rest ih =>
      cases p with
      | mk u q =>
          unfold consumeChanges
          by_cases h : q > n
          · rw [if_pos h]
            exact ⟨rest.map Prod.fst, rfl⟩
          · rw [if_neg h]
            obtain ⟨tl, htl⟩ := ih (n - q)
            exact ⟨tl, by simp [htl]⟩

theorem consumeChanges_entry (n : Nat) (l : List (GoodsUnit × Nat)) :
    ∀ pk ∈ consumeChanges n l, ∃ q, (pk.1, q) ∈ l ∧ pk.2 ≤ q := by
  induction l generalizing n with
  | nil => simp [consumeChanges]
  | cons p rest ih =>
      cases p with
      | mk u q =>
          unfold consumeChanges
          by_cases h : q > n
          · rw [if_pos h]
            intro pk hpk
            rcases List.mem_cons.mp hpk with hpk | hpk
            · subst hpk
              exact ⟨q, by simp, by show n ≤ q; omega⟩
            · simp at hpk
          · rw [if_neg h]
            intro pk hpk
            rcases List.mem_cons.mp hpk with hpk | hpk
            · subst hpk
              exact ⟨q, by simp, by show q ≤ q; omega⟩
            · obtain ⟨q2, hq2, hle⟩ := ih (n - q) pk hpk
              exact ⟨q2, by simp [hq2], hle⟩

/-! ### Consumer-profile bridges -/

theorem cntGE_eq_listCntGE (s : Stock) (t : Nat) : s.cntGE t = listCntGE t s.stock := rfl

theorem listCntGE_cons (t : Nat) (p : GoodsUnit × Nat) (l : List (GoodsUnit × Nat)) :
    listCntGE t (p :: l) =
      (if p.1.good.is_consumer = true ∧ t ≤ p.1.remaining_lifetime then p.2 else 0)
        + listCntGE t l := by
  by_cases h1 : p.1.good.is_consumer = true
  · by_cases h2 : t ≤ p.1.remaining_lifetime
    · simp [listCntGE, List.filter_cons, h1, h2]
    · simp [listCntGE, List.filter_cons, h1, h2]
  · simp [listCntGE, List.filter_cons, h1]

theorem listCntGE_append (t : Nat) (l1 l2 : List (GoodsUnit × Nat)) :
    listCntGE t (l1 ++ l2) = listCntGE t l1 + listCntGE t l2 := by
  simp [listCntGE, List.filter_append]

theorem consumerMeasure_eq (s : Stock) :
    consumerMeasure s = (s.stock.map bucketMeasure).sum := rfl

theorem bucketMeasure_append (l1 l2 : List (GoodsUnit × Nat)) :
    ((l1 ++ l2).map bucketMeasure).sum
      = (l1.map bucketMeasure).sum + (l2.map bucketMeasure).sum := by
  simp

theorem listCntGE_le_total (t : Nat) (l : List (GoodsUnit × Nat)) :
    listCntGE t l ≤ listCntGE 0 l := by
  induction l with
  | nil => simp [listCntGE]
  | cons p rest ih =>
      rw [listCntGE_cons, listCntGE_cons]
      by_cases h1 : p.1.good.is_consumer = true
      · by_cases h2 : t ≤ p.1.remaining_lifetime
        · rw [if_pos ⟨h1, h2⟩, if_pos ⟨h1, Nat.zero_le _⟩]
          omega
        · rw [if_neg (by tauto), if_pos ⟨h1, Nat.zero_le _⟩]
          omega
      · rw [if_neg (by tauto), if_neg (by tauto)]
        omega

theorem eq_of_key_nodup {l : List (GoodsUnit × Nat)}
    (h : (l.map Prod.fst).Nodup) {a b : GoodsUnit × Nat}
    (ha : a ∈ l) (hb : b ∈ l) (hk : a.1 = b.1) : a = b := by
  induction l with
  | nil => simp at ha
  | cons p rest ih =>
      simp only [List.map_cons, List.nodup_cons] at h
      rcases List.mem_cons.mp ha with ha' | ha' <;>
        rcases List.mem_cons.mp hb with hb' | hb'
      · rw [ha', hb']
      · exfalso
        apply h.1
        rw [ha'] at hk
        exact hk ▸ List.mem_map_of_mem Prod.fst hb'
      · exfalso
        apply h.1
        rw [hb'] at hk
        exact hk ▸ List.mem_map_of_mem Prod.fst ha'
      · exact ih h.2 ha' hb'

/-- A consumer bucket with a unique consumer key splits its list at the
unique occurrence. -/
theorem unique_key_split (l : List (GoodsUnit × Nat)) (u : GoodsUnit) (q : Nat)
    (hnd : ((l.filter (fun p => p.1.good.is_consumer)).map Prod.fst).Nodup)
    (hc : u.good.is_consumer = true) (hget : GoodsMap.get l u = some q) :
    ∃ l1 l2, l = l1 ++ (u, q) :: l2 ∧ (∀ p ∈ l1, p.1 ≠ u) ∧ (∀ p ∈ l2, p.1 ≠ u) := by
  induction l with
  | nil => simp [GoodsMap.get] at hget
  | cons p rest ih =>
      rw [GoodsMap.get_cons] at hget
      by_cases hp : p.1 = u
      · rw [if_pos hp] at hget
        have hpq : p = (u, q) := by
          cases p
          simp only at hp hget ⊢
          simp only [Option.some_inj] at hget
          simp [hp, hget]
      -- the rest contains no further key-u entry: it would be a consumer
      -- entry duplicating u among the consumer keys
        refine ⟨[], rest, by simp [hpq], by simp, ?_⟩
        intro r hr hru
        have hpc : p.1.good.is_consumer = true := by rw [hp]; exact hc
        have hrc : r.1.good.is_consumer = true := by rw [hru]; exact hc
        have hmem : r ∈ List.filter (fun p => p.1.good.is_consumer) rest :=
          List.mem_filter.mpr ⟨hr, by simp [hrc]⟩
        rw [List.filter_cons, if_pos (by simp [hpc])] at hnd
        simp only [List.map_cons, List.nodup_cons] at hnd
        apply hnd.1
        rw [hp, ← hru]
        exact List.mem_map_of_mem Prod.fst hmem
      · rw [if_neg hp] at hget
        have hnd' : ((rest.filter (fun p => p.1.good.is_consumer)).map Prod.fst).Nodup := by
          rw [List.filter_cons] at hnd
          by_cases hpc : p.1.good.is_consumer = true
          · rw [if_pos (by simp [hpc])] at hnd
            simp only [List.map_cons, List.nodup_cons] at hnd
            exact hnd.2
          · rwa [if_neg (by simp [hpc])] at hnd
        obtain ⟨l1, l2, hsplit, h1, h2⟩ := ih hnd' hget
        exact ⟨p :: l1, l2, by simp [hsplit], by
          intro r hr
          rcases List.mem_cons.mp hr with hr | hr
          · rw [hr]; exact hp
          · exact h1 r hr, h2⟩

theorem insert_on_split (l1 l2 : List (GoodsUnit × Nat)) (u : GoodsUnit) (q v : Nat)
    (h1 : ∀ p ∈ l1, p.1 ≠ u) (h2 : ∀ p ∈ l2, p.1 ≠ u) :
    GoodsMap.insert (l1 ++ (u, q) :: l2) u v = l1 ++ (u, v) :: l2 := by
  have hany : (l1 ++ (u, q) :: l2).any (fun p => p.1 = u) = true := by
    simp only [List.any_eq_true, decide_eq_true_eq]
    exact ⟨(u, q), by simp, rfl⟩
  simp only [GoodsMap.insert, hany, if_true]
  rw [List.map_append, List.map_cons]
  rw [list_map_id_of l1 _ (fun p hp => by simp [h1 p hp]),
    list_map_id_of l2 _ (fun p hp => by simp [h2 p hp])]
  simp

theorem erase_on_split (l1 l2 : List (GoodsUnit × Nat)) (u : GoodsUnit) (q : Nat)
    (h1 : ∀ p ∈ l1, p.1 ≠ u) (h2 : ∀ p ∈ l2, p.1 ≠ u) :
    GoodsMap.erase (l1 ++ (u, q) :: l2) u = l1 ++ l2 := by
  simp only [GoodsMap.erase, List.filter_append, List.filter_cons]
  rw [if_neg (by simp)]
  congr 1
  · exact List.filter_eq_self.mpr (fun p hp => by simp [h1 p hp])
  · exact List.filter_eq_self.mpr (fun p hp => by simp [h2 p hp])

theorem next_consumables_perm (s : Stock) :
    List.Perm s.next_consumables (s.stock.filter (fun p => p.1.good.is_consumer)) :=
  sortByLifetime_perm _

theorem listGE_perm (t : Nat) {l1 l2 : List (GoodsUnit × Nat)} (h : List.Perm l1 l2) :
    listGE t l1 = listGE t l2 :=
  List.Perm.sum_eq ((h.filter _).map _)

theorem listLT_perm (t : Nat) {l1 l2 : List (GoodsUnit × Nat)} (h : List.Perm l1 l2) :
    listLT t l1 = listLT t l2 :=
  List.Perm.sum_eq ((h.filter _).map _)

theorem listTotal_perm {l1 l2 : List (GoodsUnit × Nat)} (h : List.Perm l1 l2) :
    listTotal l1 = listTotal l2 :=
  List.Perm.sum_eq (h.map _)

theorem listGE_filter_consumer (t : Nat) (l : List (GoodsUnit × Nat)) :
    listGE t (l.filter (fun p => p.1.good.is_consumer)) = listCntGE t l := by
  induction l with
  | nil => simp [listGE, listCntGE]
  | cons p rest ih =>
      by_cases h1 : p.1.good.is_consumer = true
      · rw [List.filter_cons, if_pos (by simp [h1]), listGE_cons, ih, listCntGE_cons]
        by_cases h2 : t ≤ p.1.remaining_lifetime
        · rw [if_pos h2, if_pos ⟨h1, h2⟩]
        · rw [if_neg h2, if_neg (by tauto)]
      · rw [List.filter_cons, if_neg (by simp [h1]), ih, listCntGE_cons,
          if_neg (by tauto)]
        omega

theorem listGE_next_consumables (s : Stock) (t : Nat) :
    listGE t s.next_consumables = s.cntGE t := by
  rw [listGE_perm t (next_consumables_perm s), listGE_filter_consumer,
    cntGE_eq_listCntGE]

theorem listLT_zero (l : List (GoodsUnit × Nat)) : listLT 0 l = 0 := by
  unfold listLT
  rw [List.filter_eq_nil.mpr (by intro p hp; simp)]
  rfl

theorem listTotal_next_consumables (s : Stock) :
    listTotal s.next_consumables = s.cntGE 0 := by
  have h := listTotal_eq_ge_add_lt 0 s.next_consumables
  rw [listLT_zero] at h
  rw [h, listGE_next_consumables]
  omega

theorem listLT_next_consumables (s : Stock) (t : Nat) :
    listLT t s.next_consumables = s.cntGE 0 - s.cntGE t := by
  have h := listTotal_eq_ge_add_lt t s.next_consumables
  rw [listGE_next_consumables, listTotal_next_consumables] at h
  omega

theorem get_of_mem_consumer (s : Stock) (hinv : s.consumer_inv) {u : GoodsUnit} {q : Nat}
    (hmem : (u, q) ∈ s.stock) (hc : u.good.is_consumer = true) :
    s.stock.get u = some q := by
  have hex : ∃ p ∈ s.stock, (fun p => decide (p.1 = u)) p = true := ⟨(u, q), hmem, by simp⟩
  obtain ⟨p0, hfind⟩ :=
    Option.isSome_iff_exists.mp (List.find?_isSome.mpr hex)
  have hp0mem := List.mem_of_find?_eq_some hfind
  have hp0key : p0.1 = u := by simpa using List.find?_some hfind
  have hmem1 : p0 ∈ s.stock.filter (fun p => p.1.good.is_consumer) :=
    List.mem_filter.mpr ⟨hp0mem, by simp [hp0key, hc]⟩
  have hmem2 : ((u, q) : GoodsUnit × Nat) ∈ s.stock.filter (fun p => p.1.good.is_consumer) :=
    List.mem_filter.mpr ⟨hmem, by simp [hc]⟩
  have hpq := eq_of_key_nodup hinv.1 hmem1 hmem2 (by simp [hp0key])
  simp [GoodsMap.get, hfind, hpq]

/-- One `Stock::remove` of `k ≤ q` units at a consumer bucket `(u, q)`:
the consumer profile drops by `k` at thresholds up to the bucket's
lifetime, the invariant is preserved, other keys, non-consumer buckets and
the in-progress units are untouched, and the consumption measure drops by
at least `k`. -/
theorem applyRemove_spec (s : Stock) (u : GoodsUnit) (k q : Nat)
    (hinv : s.consumer_inv) (hc : u.good.is_consumer = true)
    (hget : s.stock.get u = some q) (hkq : k ≤ q) :
    (∀ t, (s.applyRemove u k).cntGE t
        = s.cntGE t - (if t ≤ u.remaining_lifetime then k else 0)) ∧
    (s.applyRemove u k).consumer_inv ∧
    (∀ k2, k2 ≠ u → (s.applyRemove u k).stock.get k2 = s.stock.get k2) ∧
    ((s.applyRemove u k).stock.filter (fun p => ¬ p.1.good.is_consumer)
        = s.stock.filter (fun p => ¬ p.1.good.is_consumer)) ∧
    (s.applyRemove u k).partial_stock = s.partial_stock ∧
    consumerMeasure (s.applyRemove u k) + k ≤ consumerMeasure s := by
  obtain ⟨l1, l2, hsplit, h1, h2⟩ := unique_key_split s.stock u q hinv.1 hc hget
  have hqpos : 0 < q := hinv.2 (u, q) (GoodsMap.mem_of_get _ _ _ hget) hc
  have hbm : ∀ x : Nat, bucketMeasure ((u, x)) = (x + 1) * (u.remaining_lifetime + 1) := by
    intro x
    simp [bucketMeasure, hc]
  by_cases hlt : q > k
  · have hres : s.applyRemove u k = { s with stock := s.stock.insert u (q - k) } := by
      simp [Stock.applyRemove, Stock.remove, hget, if_pos hlt]
    have hstock : (s.applyRemove u k).stock = l1 ++ (u, q - k) :: l2 := by
      rw [hres]
      simp only
      rw [hsplit, insert_on_split l1 l2 u q (q - k) h1 h2]
    refine ⟨?_, ⟨?_, ?_⟩, ?_, ?_, ?_, ?_⟩
    · intro t
      rw [cntGE_eq_listCntGE, cntGE_eq_listCntGE, hstock, hsplit,
        listCntGE_append, listCntGE_cons, listCntGE_append, listCntGE_cons]
      by_cases ht : t ≤ u.remaining_lifetime
      · rw [if_pos ⟨hc, ht⟩, if_pos ⟨hc, ht⟩, if_pos ht]
        omega
      · rw [if_neg (by tauto), if_neg (by tauto), if_neg ht]
        omega
    · have hkeys : (((s.applyRemove u k).stock.filter
          (fun p => p.1.good.is_consumer)).map Prod.fst)
          = ((s.stock.filter (fun p => p.1.good.is_consumer)).map Prod.fst) := by
        rw [hstock, hsplit]
        simp [List.filter_append, List.filter_cons, hc]
      rw [hkeys]
      exact hinv.1
    · intro p hp hpc
      rw [hstock] at hp
      rcases List.mem_append.mp hp with hp | hp
      · exact hinv.2 p (by rw [hsplit]; exact List.mem_append.mpr (Or.inl hp)) hpc
      · rcases List.mem_cons.mp hp with hp | hp
        · rw [hp]
          simp only
          omega
        · exact hinv.2 p
            (by rw [hsplit]; exact List.mem_append.mpr (Or.inr (List.mem_cons.mpr (Or.inr hp)))) hpc
    · intro k2 hk2
      rw [hres]
      exact GoodsMap.get_insert_ne _ _ _ _ hk2
    · rw [hstock, hsplit]
      simp [List.filter_append, List.filter_cons, hc]
    · rw [hres]
    · have hL : ∀ x : Nat, x ≤ q →
          ((q - x) + 1) * (u.remaining_lifetime + 1) + x
            ≤ (q + 1) * (u.remaining_lifetime + 1) := by
        intro x hx
        have hsum : ((q - x) + 1) + x = q + 1 := by omega
        calc ((q - x) + 1) * (u.remaining_lifetime + 1) + x
            ≤ ((q - x) + 1) * (u.remaining_lifetime + 1)
              + x * (u.remaining_lifetime + 1) := by
              have hx1 : x = x * 1 := by omega
              have := Nat.mul_le_mul_left x
                (show 1 ≤ u.remaining_lifetime + 1 by omega)
              omega
          _ = (((q - x) + 1) + x) * (u.remaining_lifetime + 1) := by
              ring
          _ = (q + 1) * (u.remaining_lifetime + 1) := by rw [hsum]
      rw [consumerMeasure_eq, consumerMeasure_eq, hstock, hsplit,
        bucketMeasure_append, bucketMeasure_append, List.map_cons, List.map_cons,
        List.sum_cons, List.sum_cons, hbm, hbm]
      have := hL k hkq
      omega
  · have hk : k = q := by omega
    subst hk
    have hres : s.applyRemove u k = { s with stock := s.stock.erase u } := by
      simp [Stock.applyRemove, Stock.remove, hget, if_neg hlt]
    have hstock : (s.applyRemove u k).stock = l1 ++ l2 := by
      rw [hres]
      simp only
      rw [hsplit, erase_on_split l1 l2 u k h1 h2]
    have hsub : (l1 ++ l2).Sublist (l1 ++ (u, k) :: l2) :=
      List.Sublist.append_left ((List.Sublist.refl l2).cons (u, k)) l1
    refine ⟨?_, ⟨?_, ?_⟩, ?_, ?_, ?_, ?_⟩
    · intro t
      rw [cntGE_eq_listCntGE, cntGE_eq_listCntGE, hstock, hsplit,
        listCntGE_append, listCntGE_append, listCntGE_cons]
      by_cases ht : t ≤ u.remaining_lifetime
      · rw [if_pos ⟨hc, ht⟩, if_pos ht]
        omega
      · rw [if_neg (by tauto), if_neg ht]
        omega
    · have hkeys := hinv.1
      rw [hsplit] at hkeys
      have := ((hsub.filter (fun p => p.1.good.is_consumer)).map Prod.fst).nodup hkeys
      rwa [hstock]
    · intro p hp hpc
      rw [hstock] at hp
      apply hinv.2 p _ hpc
      rw [hsplit]
      rcases List.mem_append.mp hp with hp | hp
      · exact List.mem_append.mpr (Or.inl hp)
      · exact List.mem_append.mpr (Or.inr (List.mem_cons.mpr (Or.inr hp)))
    · intro k2 hk2
      rw [hres]
      exact GoodsMap.get_erase_ne _ _ _ hk2
    · rw [hstock, hsplit]
      simp [List.filter_append, List.filter_cons, hc]
    · rw [hres]
    · rw [consumerMeasure_eq, consumerMeasure_eq, hstock, hsplit,
        bucketMeasure_append, bucketMeasure_append, List.map_cons, List.sum_cons, hbm]
      have hk1 : k + 1 ≤ (k + 1) * (u.remaining_lifetime + 1) := by
        have := Nat.mul_le_mul_left (k + 1)
          (show 1 ≤ u.remaining_lifetime + 1 by omega)
        omega
      omega

/-- Folding the accumulated `stock_change` removals of `Agent::consume`
over the stock: the consumer profile drops by the changes' per-threshold
totals, and everything else is preserved. -/
theorem foldRemove_spec : ∀ (chs : List (GoodsUnit × Nat)) (s : Stock),
    s.consumer_inv →
    (chs.map Prod.fst).Nodup →
    (∀ pk ∈ chs, pk.1.good.is_consumer = true ∧
      ∃ q, s.stock.get pk.1 = some q ∧ pk.2 ≤ q) →
    (∀ t, (chs.foldl (fun st p => st.applyRemove p.1 p.2) s).cntGE t
        = s.cntGE t - listGE t chs) ∧
    (chs.foldl (fun st p => st.applyRemove p.1 p.2) s).consumer_inv ∧
    ((chs.foldl (fun st p => st.applyRemove p.1 p.2) s).stock.filter
        (fun p => ¬ p.1.good.is_consumer)
      = s.stock.filter (fun p => ¬ p.1.good.is_consumer)) ∧
    (chs.foldl (fun st p => st.applyRemove p.1 p.2) s).partial_stock = s.partial_stock ∧
    consumerMeasure (chs.foldl (fun st p => st.applyRemove p.1 p.2) s) + listTotal chs
      ≤ consumerMeasure s := by
  intro chs
  induction chs with
  | nil =>
      intro s hinv _ _
      refine ⟨fun t => ?_, hinv, rfl, rfl, ?_⟩
      · simp [listGE]
      · simp [listTotal]
  | cons pk rest ih =>
      intro s hinv hnd hentry
      obtain ⟨hc, q, hget, hkq⟩ := hentry pk (by simp)
      have spec := applyRemove_spec s pk.1 pk.2 q hinv hc hget hkq
      simp only [List.map_cons, List.nodup_cons] at hnd
      have hentry' : ∀ r ∈ rest, r.1.good.is_consumer = true ∧
          ∃ q2, (s.applyRemove pk.1 pk.2).stock.get r.1 = some q2 ∧ r.2 ≤ q2 := by
        intro r hr
        obtain ⟨hc2, q2, hget2, hle2⟩ := hentry r (by simp [hr])
        refine ⟨hc2, q2, ?_, hle2⟩
        rw [spec.2.2.1 r.1 (by
          intro hk
          exact hnd.1 (hk ▸ List.mem_map_of_mem Prod.fst hr))]
        exact hget2
      have IH := ih (s.applyRemove pk.1 pk.2) spec.2.1 hnd.2 hentry'
      have hfold : (pk :: rest).foldl (fun st p => st.applyRemove p.1 p.2) s
          = rest.foldl (fun st p => st.applyRemove p.1 p.2) (s.applyRemove pk.1 pk.2) := by
        simp [List.foldl_cons]
      refine ⟨fun t => ?_, ?_, ?_, ?_, ?_⟩
      · rw [hfold, IH.1 t, spec.1 t, listGE_cons]
        split_ifs <;> omega
      · rw [hfold]
        exact IH.2.1
      · rw [hfold, IH.2.2.1, spec.2.2.2.1]
      · rw [hfold, IH.2.2.2.1, spec.2.2.2.2.1]
      · rw [hfold, listTotal_cons]
        have hm1 := IH.2.2.2.2
        have hm2 := spec.2.2.2.2.2
        omega

theorem next_consumables_empty_iff (s : Stock) (hinv : s.consumer_inv) :
    s.next_consumables.isEmpty = true ↔ s.cntGE 0 = 0 := by
  constructor
  · intro h
    have hnil : s.next_consumables = [] := List.isEmpty_iff.mp h
    have := listTotal_next_consumables s
    rw [hnil] at this
    simp [listTotal] at this
    omega
  · intro h
    cases hcs : s.next_consumables with
    | nil => simp [hcs]
    | cons p rest =>
        exfalso
        have hpmem : p ∈ s.stock.filter (fun r => r.1.good.is_consumer) :=
          (next_consumables_perm s).mem_iff.mp (by rw [hcs]; simp)
        have hpc := List.of_mem_filter hpmem
        have hppos : 0 < p.2 :=
          hinv.2 p (List.mem_of_mem_filter hpmem) (by simpa using hpc)
        have htot := listTotal_next_consumables s
        rw [hcs, listTotal_cons] at htot
        omega

/-- The full characterisation of `Agent::consume` on an invariant-satisfying
stock: the success condition, the exact consumer-profile after-state (the
`n` requested units are taken soonest-expiring-first; on failure the
consumables are fully drained), preservation of everything else, and the
measure drop. -/
theorem consume_spec (s : Stock) (n : Nat) (hinv : s.consumer_inv) :
    ((Agent.consume s n).1 = true ↔ (0 < s.cntGE 0 ∧ n ≤ s.cntGE 0)) ∧
    (∀ t, (Agent.consume s n).2.cntGE t
        = s.cntGE t - (min n (s.cntGE 0) - (s.cntGE 0 - s.cntGE t))) ∧
    (Agent.consume s n).2.consumer_inv ∧
    ((Agent.consume s n).2.stock.filter (fun p => ¬ p.1.good.is_consumer)
        = s.stock.filter (fun p => ¬ p.1.good.is_consumer)) ∧
    (Agent.consume s n).2.partial_stock = s.partial_stock ∧
    consumerMeasure (Agent.consume s n).2 + min n (s.cntGE 0) ≤ consumerMeasure s := by
  by_cases hemp : s.next_consumables.isEmpty = true
  · have hT : s.cntGE 0 = 0 := (next_consumables_empty_iff s hinv).mp hemp
    have hres : Agent.consume s n = (false, s) := by
      simp [Agent.consume, hemp]
    rw [hres]
    refine ⟨by simp [hT], fun t => ?_, hinv, rfl, rfl, ?_⟩
    · show s.cntGE t = s.cntGE t - (min n (s.cntGE 0) - (s.cntGE 0 - s.cntGE t))
      have h1 : s.cntGE t ≤ s.cntGE 0 := listCntGE_le_total t s.stock
      omega
    · show consumerMeasure s + min n (s.cntGE 0) ≤ consumerMeasure s
      omega
  · have hsorted : SortedByLife s.next_consumables := sortByLifetime_sorted _
    have hkeysnd : (s.next_consumables.map Prod.fst).Nodup := by
      have hp := (next_consumables_perm s).map Prod.fst
      exact hp.nodup_iff.mpr hinv.1
    have hchnd : ((consumeChanges n s.next_consumables).map Prod.fst).Nodup :=
      ((consumeChanges_keys_front n s.next_consumables).sublist).nodup hkeysnd
    have hentries : ∀ pk ∈ consumeChanges n s.next_consumables,
        pk.1.good.is_consumer = true ∧ ∃ q, s.stock.get pk.1 = some q ∧ pk.2 ≤ q := by
      intro pk hpk
      obtain ⟨q, hq, hle⟩ := consumeChanges_entry n s.next_consumables pk hpk
      have hmem : ((pk.1, q) : GoodsUnit × Nat)
          ∈ s.stock.filter (fun r => r.1.good.is_consumer) :=
        (next_consumables_perm s).mem_iff.mp hq
      have hc : pk.1.good.is_consumer = true := by
        simpa using List.of_mem_filter hmem
      exact ⟨hc, q, get_of_mem_consumer s hinv (List.mem_of_mem_filter hmem) hc, hle⟩
    have fold := foldRemove_spec (consumeChanges n s.next_consumables) s hinv hchnd hentries
    have hres : Agent.consume s n =
        (decide (consumeOutstanding n s.next_consumables = 0),
          (consumeChanges n s.next_consumables).foldl
            (fun st p => st.applyRemove p.1 p.2) s) := by
      simp [Agent.consume, hemp]
    have hTpos : 0 < s.cntGE 0 := by
      rcases Nat.eq_zero_or_pos (s.cntGE 0) with h | h
      · exact absurd ((next_consumables_empty_iff s hinv).mpr h) (by simpa using hemp)
      · exact h
    have hout : consumeOutstanding n s.next_consumables = n - s.cntGE 0 := by
      rw [consumeOutstanding_eq, listTotal_next_consumables]
    have hGEch : ∀ t, listGE t (consumeChanges n s.next_consumables)
        = min n (s.cntGE 0) - (s.cntGE 0 - s.cntGE t) := by
      intro t
      rw [listGE_consumeChanges t n s.next_consumables hsorted,
        listTotal_next_consumables, listLT_next_consumables]
    have hTotch : listTotal (consumeChanges n s.next_consumables)
        = min n (s.cntGE 0) := by
      rw [listTotal_consumeChanges, listTotal_next_consumables]
    rw [hres]
    refine ⟨?_, fun t => ?_, fold.2.1, fold.2.2.1, fold.2.2.2.1, ?_⟩
    · simp only [decide_eq_true_eq, hout]
      constructor
      · intro h
        exact ⟨hTpos, by omega⟩
      · intro h
        omega
    · show ((consumeChanges n s.next_consumables).foldl
          (fun st p => st.applyRemove p.1 p.2) s).cntGE t
        = s.cntGE t - (min n (s.cntGE 0) - (s.cntGE 0 - s.cntGE t))
      rw [fold.1 t, hGEch t]
    · show consumerMeasure ((consumeChanges n s.next_consumables).foldl
          (fun st p => st.applyRemove p.1 p.2) s) + min n (s.cntGE 0) ≤ consumerMeasure s
      have hm := fold.2.2.2.2
      rw [hTotch] at hm
      omega

/-- C10 (counterexample): with an empty stock and a requested amount of
zero, `consume` returns false even though the total held quantity (zero)
is at least the requested amount — the claimed biconditional fails. -/
theorem C10_empty_zero_counterexample :
    (Agent.consume Stock.default 0).1 = false ∧ Stock.default.cntGE 0 = 0 := by decide

/-- C10 (amended): `consume(n)` returns true iff the consumable buckets
are non-empty AND hold at least `n` units in total; on success the
consumer profile becomes `min (cntGE t) (total - n)` at every lifetime
threshold `t` — exactly `n` units removed, soonest-expiring-first; on
failure every consumable unit is removed (drained), so consumption on
death is not atomic; non-consumer buckets are never touched. -/
theorem C10_consume_characterisation (s : Stock) (n : Nat) (hinv : s.consumer_inv) :
    ((Agent.consume s n).1 = true ↔ (0 < s.cntGE 0 ∧ n ≤ s.cntGE 0)) ∧
    ((Agent.consume s n).1 = true →
      ∀ t, (Agent.consume s n).2.cntGE t = min (s.cntGE t) (s.cntGE 0 - n)) ∧
    ((Agent.consume s n).1 = false → (Agent.consume s n).2.cntGE 0 = 0) ∧
    ((Agent.consume s n).2.stock.filter (fun p => ¬ p.1.good.is_consumer)
        = s.stock.filter (fun p => ¬ p.1.good.is_consumer)) := by
  have spec := consume_spec s n hinv
  refine ⟨spec.1, ?_, ?_, spec.2.2.2.1⟩
  · intro hb t
    have h1 := spec.2.1 t
    have h2 : s.cntGE t ≤ s.cntGE 0 := listCntGE_le_total t s.stock
    have h3 := spec.1.mp hb
    omega
  · intro hb
    have h1 := spec.2.1 0
    have h3 : ¬ (0 < s.cntGE 0 ∧ n ≤ s.cntGE 0) := by
      intro hcontra
      rw [spec.1.mpr hcontra] at hb
      exact absurd hb (by decide)
    omega

/-- C10 amended-claim witness: three berries requested from a stock of two
berries and one fish — success, drained exactly; then a failed consume
drains a non-empty stock. -/
theorem C10_consume_characterisation_witness :
    (Agent.consume ((Stock.default.add (GoodsUnit.new .Berries) 2).add
        (GoodsUnit.new .Fish) 1) 3).1 = true ∧
    (Agent.consume ((Stock.default.add (GoodsUnit.new .Berries) 2).add
        (GoodsUnit.new .Fish) 1) 3).2.cntGE 0 = 0 ∧
    (Agent.consume (Stock.default.add (GoodsUnit.new .Berries) 2) 3).1 = false ∧
    (Agent.consume (Stock.default.add (GoodsUnit.new .Berries) 2) 3).2.cntGE 0 = 0 := by
  have s1 := (Stock.default.add (GoodsUnit.new .Berries) 2).add (GoodsUnit.new .Fish) 1
  have h1 := C10_consume_characterisation
    ((Stock.default.add (GoodsUnit.new .Berries) 2).add (GoodsUnit.new .Fish) 1) 3
    (by constructor
        · decide
        · decide)
  have h2 := C10_consume_characterisation (Stock.default.add (GoodsUnit.new .Berries) 2) 3
    (by constructor
        · decide
        · decide)
  refine ⟨h1.1.mpr (by decide), ?_, ?_, ?_⟩
  · have := h1.2.1 (h1.1.mpr (by decide)) 0
    rw [this]
    decide
  · by_cases hb : (Agent.consume (Stock.default.add (GoodsUnit.new .Berries) 2) 3).1 = true
    · exfalso
      have := h2.1.mp hb
      revert this
      decide
    · simpa using hb
  · by_cases hb : (Agent.consume (Stock.default.add (GoodsUnit.new .Berries) 2) 3).1 = true
    · exfalso
      have := h2.1.mp hb
      revert this
      decide
    · have := h2.2.2.1 (by simpa using hb)
      exact this

/-! ### The overnight Leisure step on the consumer profile -/

theorem step_forward_leisure_some_good (u v : GoodsUnit)
    (h : u.step_forward .Leisure = some v) : v.good = u.good := by
  unfold GoodsUnit.step_forward at h
  by_cases hc : u.good.is_consumer = true
  · rw [hc] at h
    by_cases hl : u.remaining_lifetime > 1
    · rw [if_pos hl] at h
      simp only [Option.some_inj] at h
      rw [← h]
    · rw [if_neg hl] at h
      simp at h
  · rw [show u.good.is_consumer = false from by simpa using hc] at h
    by_cases hm : u.good.is_material = true
    · rw [hm] at h
      simp only [Option.some_inj] at h
      rw [← h]
    · rw [show u.good.is_material = false from by simpa using hm] at h
      simp only [Option.some_inj] at h
      rw [← h]

/-- The step function of the Leisure overnight pass, as applied to each
bucket by `Stock::step_forward`. -/
theorem listCntGE_step_leisure (t : Nat) (l : List (GoodsUnit × Nat)) :
    listCntGE t (l.filterMap (fun p =>
        (p.1.step_forward .Leisure).map (fun u => (u, p.2))))
      = listCntGE (max t 1 + 1) l := by
  induction l with
  | nil => simp [listCntGE]
  | cons p rest ih =>
      rw [List.filterMap_cons]
      by_cases hc : p.1.good.is_consumer = true
      · by_cases hl : p.1.remaining_lifetime > 1
        · have hstep : p.1.step_forward .Leisure
              = some ⟨p.1.good, p.1.remaining_lifetime - 1⟩ := by
            unfold GoodsUnit.step_forward
            rw [hc, if_pos hl]
          rw [hstep]
          simp only [Option.map_some']
          rw [listCntGE_cons, listCntGE_cons, ih]
          simp only
          split_ifs with h1 h2 h2
          · rfl
          · exfalso
            rcases h1 with ⟨hco, hlt⟩
            exact h2 ⟨hc, by omega⟩
          · exfalso
            rcases h2 with ⟨hco, hlt⟩
            exact h1 ⟨by simpa using hc, by omega⟩
          · rfl
        · have hstep : p.1.step_forward .Leisure = none := by
            unfold GoodsUnit.step_forward
            rw [hc, if_neg hl]
          rw [hstep]
          simp only [Option.map_none']
          rw [ih, listCntGE_cons,
            if_neg (fun hcon => by have := hcon.2; omega)]
          omega
      · have hgood : ∀ v, p.1.step_forward .Leisure = some v →
            v.good.is_consumer = false := by
          intro v hv
          rw [step_forward_leisure_some_good p.1 v hv]
          simpa using hc
        cases hstep : p.1.step_forward .Leisure with
        | none =>
            simp only [Option.map_none']
            rw [ih, listCntGE_cons, if_neg (fun hcon => hc hcon.1)]
            omega
        | some v =>
            simp only [Option.map_some']
            rw [listCntGE_cons, listCntGE_cons, ih]
            rw [if_neg (fun hcon => by
              have := hgood v hstep
              rw [this] at hcon
              exact absurd hcon.1 (by simp)),
              if_neg (fun hcon => hc hcon.1)]

theorem step_leisure_cntGE (s : Stock) (t : Nat) :
    (s.step_forward .Leisure).cntGE t = s.cntGE (max t 1 + 1) := by
  rw [cntGE_eq_listCntGE, cntGE_eq_listCntGE]
  exact listCntGE_step_leisure t s.stock

/-- The consumer buckets remaining after the Leisure overnight pass are
exactly the aged copies of the consumer buckets with more than one unit of
lifetime left. -/
theorem step_leisure_consumer_filter (l : List (GoodsUnit × Nat)) :
    (l.filterMap (fun p =>
        (p.1.step_forward .Leisure).map (fun u => (u, p.2)))).filter
      (fun p => p.1.good.is_consumer)
    = (l.filter (fun p => p.1.good.is_consumer && 1 < p.1.remaining_lifetime)).map
        (fun p => (⟨p.1.good, p.1.remaining_lifetime - 1⟩, p.2)) := by
  induction l with
  | nil => simp
  | cons p rest ih =>
      rw [List.filterMap_cons, List.filter_cons]
      by_cases hc : p.1.good.is_consumer = true
      · by_cases hl : p.1.remaining_lifetime > 1
        · have hstep : p.1.step_forward .Leisure
              = some ⟨p.1.good, p.1.remaining_lifetime - 1⟩ := by
            unfold GoodsUnit.step_forward
            rw [hc, if_pos hl]
          rw [hstep]
          simp only [Option.map_some']
          rw [List.filter_cons, if_pos (by simpa using hc),
            if_pos (by simp [hc]; omega), List.map_cons, ih]
        · have hstep : p.1.step_forward .Leisure = none := by
            unfold GoodsUnit.step_forward
            rw [hc, if_neg hl]
          rw [hstep]
          simp only [Option.map_none']
          rw [if_neg (by simp [hc]; omega), ih]
      · have hcf : p.1.good.is_consumer = false := by simpa using hc
        cases hstep : p.1.step_forward .Leisure with
        | none =>
            simp only [Option.map_none']
            rw [if_neg (by simp [hcf]), ih]
        | some v =>
            have hv : v.good.is_consumer = false := by
              rw [step_forward_leisure_some_good p.1 v hstep]
              exact hcf
            simp only [Option.map_some']
            rw [List.filter_cons, if_neg (by simp [hv]), if_neg (by simp [hcf]), ih]

theorem step_leisure_consumer_inv (s : Stock) (hinv : s.consumer_inv) :
    (s.step_forward .Leisure).consumer_inv := by
  constructor
  · show (((s.stock.filterMap _).filter (fun p => p.1.good.is_consumer)).map Prod.fst).Nodup
    rw [step_leisure_consumer_filter]
    rw [List.map_map]
    have hfn : ((fun p : GoodsUnit × Nat => Prod.fst p) ∘
        (fun p : GoodsUnit × Nat => ((⟨p.1.good, p.1.remaining_lifetime - 1⟩ : GoodsUnit), p.2)))
        = (fun k : GoodsUnit => (⟨k.good, k.remaining_lifetime - 1⟩ : GoodsUnit)) ∘ Prod.fst := by
      funext p
      rfl
    rw [hfn, ← List.map_map]
    have hsub : (s.stock.filter
          (fun p => p.1.good.is_consumer && 1 < p.1.remaining_lifetime)).Sublist
        (s.stock.filter (fun p => p.1.good.is_consumer)) := by
      apply List.monotone_filter_right
      intro p hp
      simp only [Bool.and_eq_true, decide_eq_true_eq] at hp
      simp [hp.1]
    have hnd0 : ((s.stock.filter
        (fun p => p.1.good.is_consumer && 1 < p.1.remaining_lifetime)).map Prod.fst).Nodup :=
      (hsub.map Prod.fst).nodup hinv.1
    apply List.Nodup.map_on _ hnd0
    intro x hx y hy hxy
    obtain ⟨px, hpx, hpxe⟩ := List.mem_map.mp hx
    obtain ⟨py, hpy, hpye⟩ := List.mem_map.mp hy
    have hxl : 1 < x.remaining_lifetime := by
      have := List.of_mem_filter hpx
      simp only [Bool.and_eq_true, decide_eq_true_eq] at this
      rw [← hpxe]
      exact this.2
    have hyl : 1 < y.remaining_lifetime := by
      have := List.of_mem_filter hpy
      simp only [Bool.and_eq_true, decide_eq_true_eq] at this
      rw [← hpye]
      exact this.2
    cases x with
    | mk xg xl =>
        cases y with
        | mk yg yl =>
            simp only [GoodsUnit.mk.injEq] at hxy
            simp only at hxl hyl
            obtain ⟨hg, hlt⟩ := hxy
            simp only [GoodsUnit.mk.injEq]
            exact ⟨hg, by omega⟩
  · intro p hp hpc
    obtain ⟨r, hr, hstep⟩ := List.mem_filterMap.mp hp
    obtain ⟨v, hv, hveq⟩ := Option.map_eq_some'.mp hstep
    have hpr : p = (v, r.2) := hveq.symm
    have hvg : v.good = r.1.good := step_forward_leisure_some_good r.1 v hv
    have hrc : r.1.good.is_consumer = true := by
      rw [← hvg]
      rw [hpr] at hpc
      exact hpc
    have := hinv.2 r hr hrc
    rw [hpr]
    exact this

theorem listCntGE_pos_exists (l : List (GoodsUnit × Nat)) (h : 0 < listCntGE 0 l) :
    ∃ p ∈ l, p.1.good.is_consumer = true := by
  induction l with
  | nil => simp [listCntGE] at h
  | cons p rest ih =>
      rw [listCntGE_cons] at h
      by_cases hc : p.1.good.is_consumer = true
      · exact ⟨p, by simp, hc⟩
      · rw [if_neg (by tauto)] at h
        obtain ⟨r, hr, hrc⟩ := ih (by omega)
        exact ⟨r, by simp [hr], hrc⟩

theorem step_leisure_measure_le (l : List (GoodsUnit × Nat)) :
    ((l.filterMap (fun p =>
        (p.1.step_forward .Leisure).map (fun u => (u, p.2)))).map bucketMeasure).sum
      ≤ (l.map bucketMeasure).sum ∧
    ((∃ p ∈ l, p.1.good.is_consumer = true) →
      ((l.filterMap (fun p =>
          (p.1.step_forward .Leisure).map (fun u => (u, p.2)))).map bucketMeasure).sum
        < (l.map bucketMeasure).sum) := by
  induction l with
  | nil => simp
  | cons p rest ih =>
      rw [List.filterMap_cons]
      have hentry : ∀ v, p.1.step_forward .Leisure = some v →
          bucketMeasure ((v, p.2)) ≤ bucketMeasure p ∧
            (p.1.good.is_consumer = true → bucketMeasure ((v, p.2)) < bucketMeasure p) := by
        intro v hv
        by_cases hc : p.1.good.is_consumer = true
        · have hl : p.1.remaining_lifetime > 1 := by
            by_contra hl
            have : p.1.step_forward .Leisure = none := by
              unfold GoodsUnit.step_forward
              rw [hc, if_neg hl]
            rw [this] at hv
            exact absurd hv (by simp)
          have hveq : v = ⟨p.1.good, p.1.remaining_lifetime - 1⟩ := by
            have : p.1.step_forward .Leisure
                = some ⟨p.1.good, p.1.remaining_lifetime - 1⟩ := by
              unfold GoodsUnit.step_forward
              rw [hc, if_pos hl]
            rw [this] at hv
            exact (Option.some_inj.mp hv).symm
          have hbm1 : bucketMeasure ((v, p.2))
              = (p.2 + 1) * (p.1.remaining_lifetime - 1 + 1) := by
            rw [hveq]
            simp [bucketMeasure, hc]
          have hbm2 : bucketMeasure p = (p.2 + 1) * (p.1.remaining_lifetime + 1) := by
            have : p = (p.1, p.2) := rfl
            rw [this]
            simp [bucketMeasure, hc]
          have hlife : p.1.remaining_lifetime - 1 + 1 = p.1.remaining_lifetime := by omega
          rw [hbm1, hbm2, hlife]
          have hmul : (p.2 + 1) * (p.1.remaining_lifetime + 1)
              = (p.2 + 1) * p.1.remaining_lifetime + (p.2 + 1) := Nat.mul_succ _ _
          constructor
          · omega
          · intro _
            omega
        · have hvg : v.good = p.1.good := step_forward_leisure_some_good p.1 v hv
          have hvc : (v, p.2).1.good.is_consumer = false := by
            show v.good.is_consumer = false
            rw [hvg]
            simpa using hc
          have hbm1 : bucketMeasure ((v, p.2)) = 0 := by
            simp [bucketMeasure, hvc]
          rw [hbm1]
          exact ⟨Nat.zero_le _, fun hcc => absurd hcc hc⟩
      cases hstep : p.1.step_forward .Leisure with
      | none =>
          simp only [Option.map_none', List.map_cons, List.sum_cons]
          have hbmpos : p.1.good.is_consumer = true → 0 < bucketMeasure p := by
            intro hc
            have : p = (p.1, p.2) := rfl
            rw [this]
            simp only [bucketMeasure, if_pos hc]
            positivity
          constructor
          · omega
          · intro ⟨r, hr, hrc⟩
            rcases List.mem_cons.mp hr with hr | hr
            · have := hbmpos (hr ▸ hrc)
              omega
            · have := ih.2 ⟨r, hr, hrc⟩
              omega
      | some v =>
          simp only [Option.map_some', List.map_cons, List.sum_cons]
          have he := hentry v hstep
          constructor
          · have := ih.1
            omega
          · intro ⟨r, hr, hrc⟩
            rcases List.mem_cons.mp hr with hr | hr
            · have := he.2 (hr ▸ hrc)
              have := ih.1
              omega
            · have := ih.2 ⟨r, hr, hrc⟩
              have := he.1
              omega

theorem listCntGE_le_measure (l : List (GoodsUnit × Nat)) :
    listCntGE 0 l ≤ (l.map bucketMeasure).sum := by
  induction l with
  | nil => simp [listCntGE]
  | cons p rest ih =>
      rw [listCntGE_cons, List.map_cons, List.sum_cons]
      by_cases hc : p.1.good.is_consumer = true
      · rw [if_pos ⟨hc, Nat.zero_le _⟩]
        have hbm : bucketMeasure p = (p.2 + 1) * (p.1.remaining_lifetime + 1) := by
          have hp : p = (p.1, p.2) := rfl
          rw [hp]
          simp [bucketMeasure, hc]
        have : p.2 + 1 ≤ (p.2 + 1) * (p.1.remaining_lifetime + 1) := by
          have := Nat.mul_le_mul_left (p.2 + 1)
            (show 1 ≤ p.1.remaining_lifetime + 1 by omega)
          omega
        omega
      · rw [if_neg (by tauto)]
        omega

/-- A surviving day of the pure-consumption trajectory strictly decreases
the consumption measure. -/
theorem day_measure_lt (s : Stock) (n : Nat) (hinv : s.consumer_inv)
    (hs : (Agent.consume s n).1 = true) :
    consumerMeasure ((Agent.consume s n).2.step_forward .Leisure) < consumerMeasure s := by
  have spec := consume_spec s n hinv
  have hsurv := spec.1.mp hs
  have hstep := step_leisure_measure_le (Agent.consume s n).2.stock
  rcases Nat.eq_zero_or_pos n with hn | hn
  · -- n = 0: nothing is consumed, but overnight aging is strict on the
    -- still non-empty consumer stock
    have hT : (Agent.consume s n).2.cntGE 0 = 0 + (s.cntGE 0 - 0) := by
      have := spec.2.1 0
      omega
    have hpos : 0 < listCntGE 0 (Agent.consume s n).2.stock := by
      rw [← cntGE_eq_listCntGE]
      omega
    obtain ⟨p, hp, hpc⟩ := listCntGE_pos_exists _ hpos
    have hlt := hstep.2 ⟨p, hp, hpc⟩
    have hcm := spec.2.2.2.2.2
    calc consumerMeasure ((Agent.consume s n).2.step_forward .Leisure)
        < consumerMeasure (Agent.consume s n).2 := hlt
      _ ≤ consumerMeasure s := by omega
  · have hcm := spec.2.2.2.2.2
    have hmin : 0 < min n (s.cntGE 0) := by omega
    calc consumerMeasure ((Agent.consume s n).2.step_forward .Leisure)
        ≤ consumerMeasure (Agent.consume s n).2 := hstep.1
      _ < consumerMeasure s := by omega

theorem day_consumer_inv (s : Stock) (n : Nat) (hinv : s.consumer_inv) :
    ((Agent.consume s n).2.step_forward .Leisure).consumer_inv :=
  step_leisure_consumer_inv _ (consume_spec s n hinv).2.2.1

/-- The consumer profile after one surviving day of the pure-consumption
trajectory. -/
theorem day_cntGE (s : Stock) (n : Nat) (hinv : s.consumer_inv)
    (hs : (Agent.consume s n).1 = true) (t : Nat) :
    ((Agent.consume s n).2.step_forward .Leisure).cntGE t
      = min (s.cntGE (max t 1 + 1)) (s.cntGE 0 - n) := by
  have spec := consume_spec s n hinv
  have hsurv := spec.1.mp hs
  rw [step_leisure_cntGE, spec.2.1 (max t 1 + 1)]
  have h1 : s.cntGE (max t 1 + 1) ≤ s.cntGE 0 := listCntGE_le_total _ s.stock
  omega

/-- The count loop is independent of the fuel once the fuel exceeds the
consumption measure. -/
theorem countAux_congr : ∀ (M : Nat) (s : Stock) (f g n : Nat),
    consumerMeasure s ≤ M → s.consumer_inv →
    consumerMeasure s < f → consumerMeasure s < g →
    countAux f n s = countAux g n s := by
  intro M
  induction M with
  | zero =>
      intro s f g n hM hinv hf hg
      have hT : s.cntGE 0 = 0 := by
        have h1 := listCntGE_le_measure s.stock
        rw [← consumerMeasure_eq, ← cntGE_eq_listCntGE] at h1
        omega
      have hb : (Agent.consume s n).1 = false := by
        cases hbb : (Agent.consume s n).1 with
        | false => rfl
        | true =>
            have := (consume_spec s n hinv).1.mp hbb
            omega
      obtain ⟨f2, rfl⟩ : ∃ f2, f = f2 + 1 := ⟨f - 1, by omega⟩
      obtain ⟨g2, rfl⟩ : ∃ g2, g = g2 + 1 := ⟨g - 1, by omega⟩
      simp [countAux, hb]
  | succ M ih =>
      intro s f g n hM hinv hf hg
      obtain ⟨f2, rfl⟩ : ∃ f2, f = f2 + 1 := ⟨f - 1, by omega⟩
      obtain ⟨g2, rfl⟩ : ∃ g2, g = g2 + 1 := ⟨g - 1, by omega⟩
      cases hb : (Agent.consume s n).1 with
      | false => simp [countAux, hb]
      | true =>
          have hday := day_measure_lt s n hinv hb
          have hdayinv := day_consumer_inv s n hinv
          simp only [countAux, hb, if_true]
          congr 1
          exact ih ((Agent.consume s n).2.step_forward .Leisure) f2 g2 n
            (by omega) hdayinv (by omega) (by omega)

/-- With a common fuel, the count loop is monotone in the consumer
profile. -/
theorem countAux_mono : ∀ (f n : Nat) (s s2 : Stock),
    s.consumer_inv → s2.consumer_inv →
    (∀ t, s.cntGE t ≤ s2.cntGE t) →
    countAux f n s ≤ countAux f n s2 := by
  intro f
  induction f with
  | zero => intro n s s2 _ _ _; simp [countAux]
  | succ f ih =>
      intro n s s2 hinv hinv2 hprof
      cases hb : (Agent.consume s n).1 with
      | false => simp [countAux, hb]
      | true =>
          have hsurv := (consume_spec s n hinv).1.mp hb
          have hb2 : (Agent.consume s2 n).1 = true :=
            (consume_spec s2 n hinv2).1.mpr
              ⟨by have := hprof 0; omega, by have := hprof 0; omega⟩
          simp only [countAux, hb, hb2, if_true]
          have hdayprof : ∀ t,
              ((Agent.consume s n).2.step_forward .Leisure).cntGE t
                ≤ ((Agent.consume s2 n).2.step_forward .Leisure).cntGE t := by
            intro t
            rw [day_cntGE s n hinv hb t, day_cntGE s2 n hinv2 hb2 t]
            have h1 := hprof (max t 1 + 1)
            have h2 := hprof 0
            omega
          have := ih n ((Agent.consume s n).2.step_forward .Leisure)
            ((Agent.consume s2 n).2.step_forward .Leisure)
            (day_consumer_inv s n hinv) (day_consumer_inv s2 n hinv2) hdayprof
          omega

theorem add_consumer_inv (s : Stock) (u : GoodsUnit) (q : Nat)
    (hinv : s.consumer_inv) (hq : 0 < q) : (s.add u q).consumer_inv := by
  unfold Stock.add
  cases hm : s.stock.get u with
  | none =>
      have happ : GoodsMap.insert s.stock u q = s.stock ++ [(u, q)] := by
        simp [GoodsMap.insert, GoodsMap.any_key_eq_false s.stock u hm]
      simp only [happ]
      constructor
      · show (((s.stock ++ [(u, q)]).filter (fun p => p.1.good.is_consumer)).map
            Prod.fst).Nodup
        rw [List.filter_append]
        by_cases hc : u.good.is_consumer = true
        · rw [show List.filter (fun p => p.1.good.is_consumer) [((u : GoodsUnit), q)]
              = [(u, q)] by simp [List.filter_cons, hc]]
          rw [List.map_append]
          apply List.Nodup.append hinv.1 (by simp)
          intro x hx hx2
          simp only [List.map_cons, List.map_nil, List.mem_singleton] at hx2
          obtain ⟨p, hp, hpe⟩ := List.mem_map.mp hx
          have hpmem := List.mem_of_mem_filter hp
          rw [GoodsMap.get_eq_none_iff] at hm
          exact hm p hpmem (by rw [hpe, hx2])
        · rw [show List.filter (fun p => p.1.good.is_consumer) [((u : GoodsUnit), q)]
              = [] by simp [List.filter_cons, hc]]
          simpa using hinv.1
      · intro p hp hpc
        rcases List.mem_append.mp hp with hp | hp
        · exact hinv.2 p hp hpc
        · rw [List.mem_singleton.mp hp]
          exact hq
  | some m0 =>
      have hany := GoodsMap.any_key_eq_true s.stock u m0 hm
      have hrepl : GoodsMap.insert s.stock u (q + m0)
          = s.stock.map (fun p => if p.1 = u then (u, q + m0) else p) := by
        simp [GoodsMap.insert, hany]
      simp only [hrepl]
      by_cases hc : u.good.is_consumer = true
      · obtain ⟨l1, l2, hsplit, h1, h2⟩ := unique_key_split s.stock u m0 hinv.1 hc hm
        have hmap : s.stock.map (fun p => if p.1 = u then (u, q + m0) else p)
            = l1 ++ (u, q + m0) :: l2 := by
          rw [hsplit, List.map_append, List.map_cons]
          rw [list_map_id_of l1 _ (fun p hp => by simp [h1 p hp]),
            list_map_id_of l2 _ (fun p hp => by simp [h2 p hp])]
          simp
        rw [hmap]
        constructor
        · have hkeys : ((l1 ++ (u, q + m0) :: l2).filter
              (fun p => p.1.good.is_consumer)).map Prod.fst
              = ((s.stock.filter (fun p => p.1.good.is_consumer)).map Prod.fst) := by
            rw [hsplit]
            simp [List.filter_append, List.filter_cons, hc]
          rw [hkeys]
          exact hinv.1
        · intro p hp hpc
          rcases List.mem_append.mp hp with hp | hp
          · exact hinv.2 p (by rw [hsplit]; exact List.mem_append.mpr (Or.inl hp)) hpc
          · rcases List.mem_cons.mp hp with hp | hp
            · rw [hp]
              simp only
              omega
            · exact hinv.2 p (by
                rw [hsplit]
                exact List.mem_append.mpr (Or.inr (List.mem_cons.mpr (Or.inr hp)))) hpc
      · have hcf : u.good.is_consumer = false := by simpa using hc
        have hfc : (s.stock.map (fun p => if p.1 = u then (u, q + m0) else p)).filter
            (fun p => p.1.good.is_consumer)
            = s.stock.filter (fun p => p.1.good.is_consumer) := by
          induction s.stock with
          | nil => simp
          | cons p rest ihl =>
              rw [List.map_cons, List.filter_cons, List.filter_cons]
              by_cases hp : p.1 = u
              · rw [if_pos hp,
                  if_neg (by simp [hcf]),
                  if_neg (by rw [hp]; simp [hcf])]
                exact ihl
              · rw [if_neg hp]
                by_cases hpc : p.1.good.is_consumer = true
                · rw [if_pos (by simpa using hpc), if_pos (by simpa using hpc), ihl]
                · rw [if_neg (by simpa using hpc), if_neg (by simpa using hpc)]
                  exact ihl
        constructor
        · show (((s.stock.map fun p => if p.1 = u then (u, q + m0) else p).filter
              (fun p => p.1.good.is_consumer)).map Prod.fst).Nodup
          rw [hfc]
          exact hinv.1
        · intro p hp hpc
          obtain ⟨r, hr, hre⟩ := List.mem_map.mp hp
          by_cases hrk : r.1 = u
          · rw [if_pos hrk] at hre
            rw [← hre] at hpc
            exact absurd hpc (by simpa using hcf)
          · rw [if_neg hrk] at hre
            have hpos := hinv.2 r hr (by rw [hre]; exact hpc)
            rwa [hre] at hpos

theorem add_cntGE_le (s : Stock) (u : GoodsUnit) (q : Nat) (hinv : s.consumer_inv) :
    ∀ t, s.cntGE t ≤ (s.add u q).cntGE t := by
  intro t
  unfold Stock.add
  cases hm : s.stock.get u with
  | none =>
      have happ : GoodsMap.insert s.stock u q = s.stock ++ [(u, q)] := by
        simp [GoodsMap.insert, GoodsMap.any_key_eq_false s.stock u hm]
      show s.cntGE t ≤ listCntGE t (GoodsMap.insert s.stock u q)
      rw [happ, listCntGE_append, cntGE_eq_listCntGE]
      omega
  | some m0 =>
      have hany := GoodsMap.any_key_eq_true s.stock u m0 hm
      have hrepl : GoodsMap.insert s.stock u (q + m0)
          = s.stock.map (fun p => if p.1 = u then (u, q + m0) else p) := by
        simp [GoodsMap.insert, hany]
      show s.cntGE t ≤ listCntGE t (GoodsMap.insert s.stock u (q + m0))
      rw [hrepl]
      by_cases hc : u.good.is_consumer = true
      · obtain ⟨l1, l2, hsplit, h1, h2⟩ := unique_key_split s.stock u m0 hinv.1 hc hm
        have hmap : s.stock.map (fun p => if p.1 = u then (u, q + m0) else p)
            = l1 ++ (u, q + m0) :: l2 := by
          rw [hsplit, List.map_append, List.map_cons]
          rw [list_map_id_of l1 _ (fun p hp => by simp [h1 p hp]),
            list_map_id_of l2 _ (fun p hp => by simp [h2 p hp])]
          simp
        rw [hmap, cntGE_eq_listCntGE, hsplit, listCntGE_append, listCntGE_append,
          listCntGE_cons, listCntGE_cons]
        split_ifs <;> omega
      · have hcf : u.good.is_consumer = false := by simpa using hc
        have hfc : (s.stock.map (fun p => if p.1 = u then (u, q + m0) else p)).filter
            (fun p => p.1.good.is_consumer && t ≤ p.1.remaining_lifetime)
            = s.stock.filter (fun p => p.1.good.is_consumer && t ≤ p.1.remaining_lifetime) := by
          induction s.stock with
          | nil => simp
          | cons p rest ihl =>
              rw [List.map_cons, List.filter_cons, List.filter_cons]
              by_cases hp : p.1 = u
              · rw [if_pos hp,
                  if_neg (by simp [hcf]),
                  if_neg (by rw [hp]; simp [hcf])]
                exact ihl
              · rw [if_neg hp]
                by_cases hpc : (p.1.good.is_consumer && t ≤ p.1.remaining_lifetime) = true
                · rw [if_pos (by simpa using hpc), if_pos (by simpa using hpc), ihl]
                · rw [if_neg (by simpa using hpc), if_neg (by simpa using hpc)]
                  exact ihl
        rw [cntGE_eq_listCntGE]
        unfold listCntGE
        rw [hfc]

/-- C7: `count_timesteps_till_death` with no additional good is zero for
an empty stock, and (on a stock satisfying the consumer-bucket invariant)
adding further units of a consumer good never decreases the survival
count — the count is monotonic in nutritional content. -/
theorem C7_count_till_death_zero_and_monotone (daily_nutrition : Nat) (s : Stock)
    (u : GoodsUnit) (q : Nat) (hinv : s.consumer_inv)
    (hc : u.good.is_consumer = true) (hq : 0 < q) :
    RationalAgent.count_timesteps_till_death daily_nutrition Stock.default none = 0 ∧
    RationalAgent.count_timesteps_till_death daily_nutrition s none
      ≤ RationalAgent.count_timesteps_till_death daily_nutrition (s.add u q) none := by
  constructor
  · rfl
  · show countAux (consumerMeasure s + 1) daily_nutrition s
      ≤ countAux (consumerMeasure (s.add u q) + 1) daily_nutrition (s.add u q)
    have hinv2 : (s.add u q).consumer_inv := add_consumer_inv s u q hinv hq
    have hprof := add_cntGE_le s u q hinv
    calc countAux (consumerMeasure s + 1) daily_nutrition s
        = countAux (consumerMeasure s + 1 + consumerMeasure (s.add u q) + 1)
            daily_nutrition s :=
          countAux_congr (consumerMeasure s) s _ _ daily_nutrition le_rfl hinv
            (by omega) (by omega)
      _ ≤ countAux (consumerMeasure s + 1 + consumerMeasure (s.add u q) + 1)
            daily_nutrition (s.add u q) :=
          countAux_mono _ daily_nutrition s (s.add u q) hinv hinv2 hprof
      _ = countAux (consumerMeasure (s.add u q) + 1) daily_nutrition (s.add u q) :=
          (countAux_congr (consumerMeasure (s.add u q)) (s.add u q) _ _ daily_nutrition
            le_rfl hinv2 (by omega) (by omega)).symm

/-- C7 witness: adding three berries to a five-berry stock does not
decrease the survival count. -/
theorem C7_count_till_death_zero_and_monotone_witness :
    RationalAgent.count_timesteps_till_death 3 Stock.default none = 0 ∧
    RationalAgent.count_timesteps_till_death 3 (Stock.default.add ⟨.Berries, 10⟩ 5) none
      ≤ RationalAgent.count_timesteps_till_death 3
          ((Stock.default.add ⟨.Berries, 10⟩ 5).add ⟨.Berries, 10⟩ 3) none := by
  have h := C7_count_till_death_zero_and_monotone 3
    (Stock.default.add ⟨.Berries, 10⟩ 5) ⟨.Berries, 10⟩ 3
    (by constructor
        · decide
        · decide)
    (by decide) (by decide)
  exact h

/-- C8: for every consumer good and every stock (and any fuel bound on
the embedded search loops), `marginal_unit_value_of_consumer_good` returns
exactly 0 whenever `additional_sustenance` of that good is 0 — the
zero-sustenance early return fires before any of the cross-good
substitution search. -/
theorem C8_marginal_value_zero_of_no_sustenance (fuel daily_nutrition : Nat)
    (s : Stock) (good : Good) (hc : good.is_consumer = true)
    (hsus : RationalAgent.additional_sustenance daily_nutrition s good = 0) :
    RationalAgent.marginal_unit_value_of_consumer_good fuel daily_nutrition s good
      = some 0 := by
  unfold RationalAgent.marginal_unit_value_of_consumer_good
  rw [if_neg (by simp [hc])]
  simp [hsus]

/-- C8 witness: with an empty stock, one extra unit of Berries adds no
survival time, and the marginal unit value is exactly 0. -/
theorem C8_marginal_value_zero_of_no_sustenance_witness :
    RationalAgent.additional_sustenance 3 Stock.default .Berries = 0 ∧
    RationalAgent.marginal_unit_value_of_consumer_good 5 3 Stock.default .Berries
      = some 0 :=
  ⟨by decide,
   C8_marginal_value_zero_of_no_sustenance 5 3 Stock.default .Berries (by decide)
     (by decide)⟩

end Crusoe
